import Mathlib

/-!
Clash listener supervisor, flow tracker, address utilities and DNS filters.

A shallow embedding of the Go sources

* `listener/listener.go` (listener registry, diffing, port synthesis, tunnels),
* `tunnel/statistic/tracker.go` (per-flow byte counters),
* `adapter/outbound/util.go` (SOCKS address serialisation),
* `dns/filters.go` (geo-IP fallback filter),
* `listener/http/upgrade.go` (upgrade-request detection),

together with the properties established about them.

Go strings are modelled as lists of characters.  All separators the code
looks for (`:`, `[`, `]`, `/`, `,`, the decimal digits) are ASCII, so searching
a valid UTF-8 string byte-wise and character-wise agree.  Go maps are modelled
as association lists.  Go leaves the order in which `range` visits a map
unspecified; that order is a parameter of the model (`Env.order`,
`TunnelEnv.order`), and the general statements hold for every order that
visits each key once.
-/

set_option autoImplicit false

namespace Clash

/-- Go `string`, as a list of characters. -/
abbrev Str := List Char

/-! ## Go maps as association lists -/

/-- Go `m[k]` with the comma-ok result folded into an `Option`. -/
def mapGet {K V : Type} [DecidableEq K] (m : List (K × V)) (k : K) : Option V :=
  match m with
  | [] => none
  | (k1, v) :: rest => if k1 = k then some v else mapGet rest k

/-- Go `delete(m, k)`. -/
def mapDel {K V : Type} [DecidableEq K] (m : List (K × V)) (k : K) : List (K × V) :=
  m.filter (fun e => decide (e.1 ≠ k))

/-- Go `m[k] = v`. -/
def mapSet {K V : Type} [DecidableEq K] (m : List (K × V)) (k : K) (v : V) : List (K × V) :=
  mapDel m k ++ [(k, v)]

/-- The keys of a map, in the order `range` visits them in this model. -/
def mapKeys {K V : Type} (m : List (K × V)) : List K :=
  m.map Prod.fst

/-! ## Standard-library string helpers used by `listener.go` -/

/-- Go `strings.IndexByte`, `none` standing for `-1`. -/
def indexByte : Str → Char → Option Nat
  | [], _ => none
  | x :: xs, c => if x = c then some 0 else (indexByte xs c).map (· + 1)

/-- Go `strings.LastIndexByte`, `none` standing for `-1`. -/
def lastIndexByte : Str → Char → Option Nat
  | [], _ => none
  | x :: xs, c =>
    match lastIndexByte xs c with
    | some i => some (i + 1)
    | none => if x = c then some 0 else none

/-- Go `net.SplitHostPort`; `none` stands for a returned `*AddrError`
(missing port, too many colons, missing or unexpected bracket). -/
def SplitHostPort (hostport : Str) : Option (Str × Str) :=
  match lastIndexByte hostport ':' with
  | none => none
  | some i =>
    match hostport with
    | '[' :: _ =>
      match indexByte hostport ']' with
      | none => none
      | some e =>
        if e + 1 = hostport.length then none
        else if e + 1 = i then
          if (indexByte (hostport.drop 1) '[').isSome then none
          else if (indexByte (hostport.drop (e + 1)) ']').isSome then none
          else some ((hostport.take e).drop 1, hostport.drop (i + 1))
        else none
    | _ =>
      if (indexByte (hostport.take i) ':').isSome then none
      else if (indexByte hostport '[').isSome then none
      else if (indexByte hostport ']').isSome then none
      else some (hostport.take i, hostport.drop (i + 1))

/-- The ASCII digit for `d < 10`. -/
def digitChar (d : Nat) : Char := Char.ofNat (48 + d)

/-- Decimal digits of `n`, most significant first, pushed in front of `acc`. -/
def natDigitsAux : Nat → Nat → Str → Str
  | 0, _, acc => acc
  | fuel + 1, n, acc =>
    if n < 10 then digitChar n :: acc
    else natDigitsAux fuel (n / 10) (digitChar (n % 10) :: acc)

/-- Decimal rendering of a natural number. -/
def formatNat (n : Nat) : Str := natDigitsAux (n + 1) n []

/-- Go `fmt.Sprintf("%d", i)`. -/
def formatInt (i : Int) : Str :=
  if i < 0 then '-' :: formatNat i.natAbs else formatNat i.natAbs

/-- Value of a run of ASCII digits read left to right from `acc`; `none` on a
character that is not a digit. -/
def parseDigits : Str → Nat → Option Nat
  | [], acc => some acc
  | c :: cs, acc =>
    if 48 ≤ c.toNat ∧ c.toNat ≤ 57 then parseDigits cs (acc * 10 + (c.toNat - 48))
    else none

/-- Go `strconv.Atoi` on a 64-bit platform; `none` stands for a returned
error (syntax error or value out of the range of `int`). -/
def Atoi (s : Str) : Option Int :=
  let sb : Bool × Str :=
    match s with
    | '-' :: r => (true, r)
    | '+' :: r => (false, r)
    | _ => (false, s)
  if sb.2 = [] then none
  else
    match parseDigits sb.2 0 with
    | none => none
    | some v =>
      let i : Int := if sb.1 then -(v : Int) else (v : Int)
      if -(2 : Int) ^ 63 ≤ i ∧ i < (2 : Int) ^ 63 then some i else none

/-! ## `listener.go`: address helpers -/

/-- Source `portIsZero`. -/
def portIsZero (addr : Str) : Bool :=
  match SplitHostPort addr with
  | none => true
  | some (_, port) => decide (port = "0".toList) || decide (port = [])

/-- Source `genAddr`. -/
def genAddr (host : Str) (port : Int) (allowLan : Bool) : Str :=
  if allowLan then
    if host = "*".toList then ':' :: formatInt port
    else host ++ ':' :: formatInt port
  else "127.0.0.1:".toList ++ formatInt port

/-- Source `getPort`. -/
def getPort (addr : Str) : Int :=
  match SplitHostPort addr with
  | none => 0
  | some (_, portStr) =>
    match Atoi portStr with
    | none => 0
    | some port => port

/-! ## `listener.go`: the listener registry -/

/-- Modelled from the spec: the inbound types of the `constant` package, which
is not part of the sources at hand.  The five types the spec names (`http`,
`socks`, `redir`, `tproxy`, `mixed`) are the keys of the creator tables; the
underlying Go type is a string, so any other name is possible as well. -/
inductive InboundType where
  | HTTP
  | Socks
  | Redir
  | Tproxy
  | Mixed
  | Other (name : Str)
  deriving DecidableEq, Repr

/-- Modelled from the spec: the inbound descriptor `C.Inbound`, a value with
attributes type, bind address and is-from-ports-config, compared structurally. -/
structure Inbound where
  Typ : InboundType
  BindAddress : Str
  IsFromPortCfg : Bool
  deriving DecidableEq, Repr

/-- The listener constructors named in the two creator tables. -/
inductive Creator where
  | httpNew
  | socksNew
  | redirNew
  | tproxyNew
  | mixedNew
  | socksNewUDP
  | tproxyNewUDP
  deriving DecidableEq, Repr

/-- A listener handle: which constructor made it, on which address, and the
serial number of the creation (two creations never give the same handle). -/
structure Listener where
  creator : Creator
  addr : Str
  serial : Nat
  deriving DecidableEq, Repr

/-- Observable steps of the supervisor, recorded in a ghost trace. -/
inductive Event where
  | closeListener (i : Inbound)
  | close (l : Listener)
  | create (c : Creator) (addr : Str)
  deriving DecidableEq, Repr

/-- What the code does not determine: whether listening with constructor `c`
on `addr` succeeds (the operating system), and the order in which a `range`
loop visits the keys of a map (the Go runtime), given as a rearrangement of the
list of keys. -/
structure Env where
  listen : Creator → Str → Bool
  order : List Inbound → List Inbound

/-- The package-level variables of `listener.go` (inbound part), with a ghost
creation counter and a ghost trace. -/
structure Registry where
  allowLan : Bool
  bindAddress : Str
  tcpListeners : List (Inbound × Listener)
  udpListeners : List (Inbound × Listener)
  nextSerial : Nat
  log : List Event
  deriving DecidableEq, Repr

/-- The initial values of the package-level variables. -/
def Registry.init : Registry :=
  { allowLan := false, bindAddress := "*".toList, tcpListeners := [], udpListeners := [],
    nextSerial := 0, log := [] }

/-- Source `Ports`. -/
structure Ports where
  Port : Int
  SocksPort : Int
  RedirPort : Int
  TProxyPort : Int
  MixedPort : Int
  deriving DecidableEq, Repr

/-- Source table `tcpListenerCreators`. -/
def tcpListenerCreators : InboundType → Option Creator
  | .HTTP => some .httpNew
  | .Socks => some .socksNew
  | .Redir => some .redirNew
  | .Tproxy => some .tproxyNew
  | .Mixed => some .mixedNew
  | .Other _ => none

/-- Source table `udpListenerCreators`. -/
def udpListenerCreators : InboundType → Option Creator
  | .Socks => some .socksNewUDP
  | .Redir => some .tproxyNewUDP
  | .Tproxy => some .tproxyNewUDP
  | .Mixed => some .socksNewUDP
  | _ => none

/-- One call of a listener constructor: it is recorded in the trace and, when
the environment lets it succeed, returns a fresh handle. -/
def callCreator (env : Env) (c : Creator) (addr : Str) (s : Registry) : Option Listener × Registry :=
  let s1 := { s with log := s.log ++ [Event.create c addr] }
  if env.listen c addr = true then
    (some { creator := c, addr := addr, serial := s.nextSerial },
      { s1 with nextSerial := s.nextSerial + 1 })
  else (none, s1)

/-- The second half of source `createListener`: the `if udpCreator != nil` block. -/
def createListenerUDP (env : Env) (inbound : Inbound) (s : Registry) : Registry :=
  match udpListenerCreators inbound.Typ with
  | none => s
  | some c =>
    match callCreator env c inbound.BindAddress s with
    | (none, s1) => s1
    | (some l, s1) => { s1 with udpListeners := mapSet s1.udpListeners inbound l }

/-- Source `createListener`. -/
def createListener (env : Env) (inbound : Inbound) (s : Registry) : Registry :=
  if portIsZero inbound.BindAddress = true then s
  else if tcpListenerCreators inbound.Typ = none ∧ udpListenerCreators inbound.Typ = none then s
  else
    match tcpListenerCreators inbound.Typ with
    | none => createListenerUDP env inbound s
    | some c =>
      match callCreator env c inbound.BindAddress s with
      | (none, s1) => s1
      | (some l, s1) =>
        createListenerUDP env inbound { s1 with tcpListeners := mapSet s1.tcpListeners inbound l }

/-- Source `closeListener`. -/
def closeListener (inbound : Inbound) (s : Registry) : Registry :=
  let s0 := { s with log := s.log ++ [Event.closeListener inbound] }
  let s1 :=
    match mapGet s0.tcpListeners inbound with
    | some l =>
      { s0 with log := s0.log ++ [Event.close l],
                tcpListeners := mapDel s0.tcpListeners inbound }
    | none => s0
  match mapGet s1.udpListeners inbound with
  | some l =>
    { s1 with log := s1.log ++ [Event.close l],
              udpListeners := mapDel s1.udpListeners inbound }
  | none => s1

/-- The second loop of source `getNeedCloseAndCreateInbound`: one step for one
element of the new list, on the pair (needCloseMap, needCreate). -/
def needStep (acc : List (Inbound × Bool) × List Inbound) (i : Inbound) :
    List (Inbound × Bool) × List Inbound :=
  if (mapGet acc.1 i).getD false = true then (mapDel acc.1 i, acc.2)
  else (acc.1, acc.2 ++ [i])

/-- Source `getNeedCloseAndCreateInbound`; `order` is the order in which the
final `range` loop visits the keys of needCloseMap. -/
def getNeedCloseAndCreateInbound (order : List Inbound → List Inbound)
    (originInbounds newInbounds : List Inbound) : List Inbound × List Inbound :=
  let needCloseMap : List (Inbound × Bool) :=
    originInbounds.foldl (fun m i => mapSet m i true) []
  let r := newInbounds.foldl needStep (needCloseMap, [])
  (order (mapKeys r.1), r.2)

/-- Source `getInbounds`. -/
def getInbounds (env : Env) (s : Registry) : List Inbound :=
  env.order (mapKeys s.tcpListeners) ++
    (env.order (mapKeys s.udpListeners)).filter (fun i => (mapGet s.tcpListeners i).isNone)

/-- Source `GetInbounds`. -/
def GetInbounds (env : Env) (s : Registry) : List Inbound :=
  (getInbounds env s).filter (fun i => !i.IsFromPortCfg)

/-- Source `reCreateListeners` (the mutex is not modelled). -/
def reCreateListeners (env : Env) (inbounds : List Inbound) (s : Registry) : Registry :=
  let r := getNeedCloseAndCreateInbound env.order (getInbounds env s) inbounds
  let s1 := r.1.foldl (fun st i => closeListener i st) s
  r.2.foldl (fun st i => createListener env i st) s1

/-- Source `ReCreateListeners`. -/
def ReCreateListeners (env : Env) (inbounds : List Inbound) (s : Registry) : Registry :=
  reCreateListeners env (inbounds ++ (getInbounds env s).filter (fun i => i.IsFromPortCfg)) s

/-- Source `addPortInbound`; the two package variables it reads are passed in. -/
def addPortInbound (bindAddress : Str) (allowLan : Bool) (inbounds : List Inbound)
    (inboundType : InboundType) (port : Int) : List Inbound :=
  if port ≠ 0 then
    inbounds ++ [{ Typ := inboundType, BindAddress := genAddr bindAddress port allowLan,
                   IsFromPortCfg := true }]
  else inbounds

/-- The inbound list that source `ReCreatePortsListeners` builds. -/
def portsInbounds (env : Env) (ports : Ports) (s : Registry) : List Inbound :=
  let n0 := GetInbounds env s
  let n1 := addPortInbound s.bindAddress s.allowLan n0 .HTTP ports.Port
  let n2 := addPortInbound s.bindAddress s.allowLan n1 .Socks ports.SocksPort
  let n3 := addPortInbound s.bindAddress s.allowLan n2 .Redir ports.RedirPort
  let n4 := addPortInbound s.bindAddress s.allowLan n3 .Tproxy ports.TProxyPort
  addPortInbound s.bindAddress s.allowLan n4 .Mixed ports.MixedPort

/-- Source `ReCreatePortsListeners`. -/
def ReCreatePortsListeners (env : Env) (ports : Ports) (s : Registry) : Registry :=
  reCreateListeners env (portsInbounds env ports s) s

/-- Source `fillPort`. -/
def fillPort (inbound : Inbound) (ports : Ports) : Ports :=
  if inbound.IsFromPortCfg = true then
    let port := getPort inbound.BindAddress
    match inbound.Typ with
    | .HTTP => { ports with Port := port }
    | .Socks => { ports with SocksPort := port }
    | .Tproxy => { ports with TProxyPort := port }
    | .Redir => { ports with RedirPort := port }
    | .Mixed => { ports with MixedPort := port }
    | .Other _ => ports
  else ports

/-- Source `GetPorts`. -/
def GetPorts (env : Env) (s : Registry) : Ports :=
  (getInbounds env s).foldl (fun p i => fillPort i p)
    { Port := 0, SocksPort := 0, RedirPort := 0, TProxyPort := 0, MixedPort := 0 }

/-- An inbound type is supported when one of the two creator tables has an
entry for it. -/
def supported (t : InboundType) : Bool :=
  (tcpListenerCreators t).isSome || (udpListenerCreators t).isSome

/-- Every listener creation succeeds. -/
def Env.allSucceed (env : Env) : Prop := ∀ c a, env.listen c a = true

/-- A `range` loop visits every key of the map exactly once. -/
def Env.orderOk (env : Env) : Prop := ∀ l, (env.order l).Perm l

/-- The environment in which every listener creation succeeds and `range`
visits the keys in the order of insertion. -/
def Env.ok : Env := { listen := fun _ _ => true, order := fun l => l }

/-- Every entry of the map carries the value `true`. -/
def allTrue (m : List (Inbound × Bool)) : Prop := ∀ e ∈ m, e.2 = true

/-- Every live key has a bind address whose port number is not zero. -/
def portsNonZero (s : Registry) : Prop :=
  ∀ k ∈ mapKeys s.tcpListeners ++ mapKeys s.udpListeners, getPort k.BindAddress ≠ 0

/-- Where the address splits into host and port, the port text is empty or a
plain decimal number: no sign, no leading zeros (the way `genAddr` writes a
port), and within the range of a Go `int`. -/
def canonicalPortText (addr : Str) : Prop :=
  ∀ h p, SplitHostPort addr = some (h, p) →
    p = [] ∨ ∃ n : Nat, p = formatNat n ∧ (n : Int) < (2 : Int) ^ 63

/-- An HTTP inbound whose port is written "00". -/
def sampleDoubleZero : Inbound :=
  { Typ := .HTTP, BindAddress := "127.0.0.1:00".toList, IsFromPortCfg := false }

/-- An HTTP inbound from the free-form inbound list. -/
def sampleHTTP : Inbound :=
  { Typ := .HTTP, BindAddress := "127.0.0.1:7890".toList, IsFromPortCfg := false }

/-- The HTTP inbound that the ports configuration `port: 7890` produces. -/
def samplePortHTTP : Inbound :=
  { Typ := .HTTP, BindAddress := "127.0.0.1:7890".toList, IsFromPortCfg := true }

/-- The registry after `ReCreatePortsListeners` with `port: 7890` on a fresh process. -/
def samplePortsState : Registry :=
  ReCreatePortsListeners Env.ok
    { Port := 7890, SocksPort := 0, RedirPort := 0, TProxyPort := 0, MixedPort := 0 }
    Registry.init

/-- The five inbound types that have a field in `Ports`, in the order in which
`ReCreatePortsListeners` adds them. -/
def portTypes : List InboundType := [.HTTP, .Socks, .Redir, .Tproxy, .Mixed]

/-- The field of `Ports` that belongs to an inbound type (as paired up in
`ReCreatePortsListeners` and `fillPort`). -/
def portOf (ports : Ports) : InboundType → Int
  | .HTTP => ports.Port
  | .Socks => ports.SocksPort
  | .Redir => ports.RedirPort
  | .Tproxy => ports.TProxyPort
  | .Mixed => ports.MixedPort
  | .Other _ => 0

/-- The descriptor `addPortInbound` appends for type `t` and port `p`. -/
def portInbound (s : Registry) (t : InboundType) (p : Int) : Inbound :=
  { Typ := t, BindAddress := genAddr s.bindAddress p s.allowLan, IsFromPortCfg := true }

/-- Number of non-zero fields of a `Ports` value. -/
def nonZeroFields (ports : Ports) : Nat :=
  (portTypes.filter (fun t => decide (portOf ports t ≠ 0))).length

/-- The values of a Go `int` on a 64-bit platform. -/
def isInt64 (i : Int) : Prop := -(2 : Int) ^ 63 ≤ i ∧ i < (2 : Int) ^ 63

/-- All five fields are values of a Go `int`. -/
def Ports.inRange (ports : Ports) : Prop := ∀ t ∈ portTypes, isInt64 (portOf ports t)

/-- The bind-address settings give a well-formed `host:port` with a non-zero
port for every non-zero field of `ports`. -/
def bindOk (s : Registry) (ports : Ports) : Prop :=
  ∀ t ∈ portTypes, portOf ports t ≠ 0 →
    portIsZero (genAddr s.bindAddress (portOf ports t) s.allowLan) = false

/-- The live keys that are port-config-derived. -/
def portCfgKeys (env : Env) (s : Registry) : List Inbound :=
  (getInbounds env s).filter (fun i => i.IsFromPortCfg)

/-- A registry in which LAN access is allowed and the bind address is the
IPv6 loopback written without brackets. -/
def sampleV6State : Registry :=
  { Registry.init with allowLan := true, bindAddress := "::1".toList }

/-- The ports configuration `port: 8080`. -/
def samplePorts1 : Ports :=
  { Port := 8080, SocksPort := 0, RedirPort := 0, TProxyPort := 0, MixedPort := 0 }

/-- The ports configuration `port: 8080, mixed-port: 7890`. -/
def samplePorts2 : Ports :=
  { Port := 8080, SocksPort := 0, RedirPort := 0, TProxyPort := 0, MixedPort := 7890 }

/-! ## `tracker.go`: per-flow byte counters -/

/-- Go `atomic.Int64.Add`: addition on 64-bit two-complement integers wraps. -/
def wrapInt64 (x : Int) : Int :=
  (x + 9223372036854775808) % 18446744073709551616 - 9223372036854775808

/-- Modelled from the spec: the statistics manager, whose source is not at
hand; of it only the two global accumulators that `push_uploaded` and
`push_downloaded` add to are kept. -/
structure Manager where
  uploaded : Int
  downloaded : Int
  deriving DecidableEq, Repr

/-- Modelled from the spec: `push_uploaded(n)` adds n to the global upload
accumulator. -/
def Manager.PushUploaded (m : Manager) (size : Int) : Manager :=
  { m with uploaded := wrapInt64 (m.uploaded + size) }

/-- Modelled from the spec: `push_downloaded(n)` adds n to the global download
accumulator. -/
def Manager.PushDownloaded (m : Manager) (size : Int) : Manager :=
  { m with downloaded := wrapInt64 (m.downloaded + size) }

/-- What one `Read` or `Write` of the underlying connection returns: the byte
count (a Go `int`) and the error, if any. -/
structure IOResult where
  n : Int
  err : Option Str
  deriving DecidableEq, Repr

/-- Source `TcpTracker` with the fields of `trackerInfo` that the I/O path
touches, and the rule strings set at construction. -/
structure TcpTracker where
  UploadTotal : Int
  DownloadTotal : Int
  Rule : Str
  RulePayload : Str
  manager : Manager
  deriving DecidableEq, Repr

/-- Source `NewTCPTracker`; `rule` is the pair (rule type, payload) when a rule
is given.  Identifier, start time, metadata and chain play no part in the
counters and are left out. -/
def NewTCPTracker (manager : Manager) (rule : Option (Str × Str)) : TcpTracker :=
  let t : TcpTracker :=
    { UploadTotal := 0, DownloadTotal := 0, Rule := [], RulePayload := [], manager := manager }
  match rule with
  | some (ruleType, payload) => { t with Rule := ruleType, RulePayload := payload }
  | none => t

/-- Source `TcpTracker.Read`; `r` is what the underlying `Conn.Read` returned. -/
def TcpTracker.Read (tt : TcpTracker) (r : IOResult) : IOResult × TcpTracker :=
  let download := r.n
  let m := tt.manager.PushDownloaded download
  ({ n := r.n, err := r.err },
    { tt with manager := m, DownloadTotal := wrapInt64 (tt.DownloadTotal + download) })

/-- Source `TcpTracker.Write`; `r` is what the underlying `Conn.Write` returned. -/
def TcpTracker.Write (tt : TcpTracker) (r : IOResult) : IOResult × TcpTracker :=
  let upload := r.n
  let m := tt.manager.PushUploaded upload
  ({ n := r.n, err := r.err },
    { tt with manager := m, UploadTotal := wrapInt64 (tt.UploadTotal + upload) })

/-- One call on the tracker, tagged with the result of the underlying call. -/
inductive Call where
  | read (r : IOResult)
  | write (r : IOResult)
  deriving DecidableEq, Repr

/-- A finite sequence of `Read` and `Write` calls on a tracker: the results
returned to the callers, in order, and the tracker afterwards. -/
def TcpTracker.run (tt : TcpTracker) : List Call → List IOResult × TcpTracker
  | [] => ([], tt)
  | Call.read r :: rest =>
    let a := tt.Read r
    let b := TcpTracker.run a.2 rest
    (a.1 :: b.1, b.2)
  | Call.write r :: rest =>
    let a := tt.Write r
    let b := TcpTracker.run a.2 rest
    (a.1 :: b.1, b.2)

/-- The result the underlying connection returned for a call. -/
def Call.result : Call → IOResult
  | .read r => r
  | .write r => r

/-- Sum of the byte counts the underlying `Write`s returned. -/
def writeSum : List Call → Int
  | [] => 0
  | Call.write r :: rest => r.n + writeSum rest
  | Call.read _ :: rest => writeSum rest

/-- Sum of the byte counts the underlying `Read`s returned. -/
def readSum : List Call → Int
  | [] => 0
  | Call.read r :: rest => r.n + readSum rest
  | Call.write _ :: rest => readSum rest

/-- Two writes of 2^62 bytes each. -/
def sampleHugeWrites : List Call :=
  [Call.write { n := 4611686018427387904, err := none },
   Call.write { n := 4611686018427387904, err := none }]

/-- The scenario of the spec: write 100 bytes, read 50 bytes, then a read that
reports 7 bytes together with an error, and a zero-byte write. -/
def sampleCalls : List Call :=
  [Call.write { n := 100, err := none }, Call.read { n := 50, err := none },
   Call.read { n := 7, err := some "EOF".toList }, Call.write { n := 0, err := none }]

/-! ## `util.go`: SOCKS address serialisation -/

/-- Go `byte`. -/
abbrev Byte := Fin 256

/-- Go conversion `uint8(x)`. -/
def toByte (x : Nat) : Byte := ⟨x % 256, Nat.mod_lt x (by decide)⟩

/-- Modelled from the spec: the address-type codes of the `socks5` package
(source not at hand), with the values of the SOCKS5 wire format. -/
def AtypIPv4 : Nat := 1

/-- Modelled from the spec: address-type code of a domain name. -/
def AtypDomainName : Nat := 3

/-- Modelled from the spec: address-type code of an IPv6 address. -/
def AtypIPv6 : Nat := 4

/-- The twelve bytes in front of an IPv4 address mapped into IPv6 (Go `v4InV6Prefix`). -/
def v4Mapped : List Byte := [0, 0, 0, 0, 0, 0, 0, 0, 0, 0, 255, 255]

/-- Go `net.IP.To4`; `none` stands for the nil slice. -/
def To4 (ip : List Byte) : Option (List Byte) :=
  if ip.length = 4 then some ip
  else if ip.length = 16 ∧ ip.take 12 = v4Mapped then some (ip.drop 12)
  else none

/-- Go `net.IP.To16`; `none` stands for the nil slice. -/
def To16 (ip : List Byte) : Option (List Byte) :=
  if ip.length = 4 then some (v4Mapped ++ ip)
  else if ip.length = 16 then some ip
  else none

/-- The fields of `C.Metadata` that `serializesSocksAddr` reads: the bytes of
the host string, the bytes of the destination IP (empty for nil) and the
destination port. -/
structure Metadata where
  Host : List Byte
  DstIP : List Byte
  DstPort : Nat
  deriving DecidableEq, Repr

/-- Source `serializesSocksAddr`.  The result of `metadata.AddrType()`, a
method whose source is not at hand, is passed in as `addrType`.  The
conversion `uint16(x)` is `x % 65536`, and writing a nil slice writes
nothing. -/
def serializesSocksAddr (addrType : Nat) (metadata : Metadata) : List Byte :=
  let buf0 : List Byte := [toByte addrType]
  let buf1 : List Byte :=
    if addrType = AtypDomainName then
      buf0 ++ [toByte metadata.Host.length] ++ metadata.Host
    else if addrType = AtypIPv4 then
      buf0 ++ (To4 metadata.DstIP).getD []
    else if addrType = AtypIPv6 then
      buf0 ++ (To16 metadata.DstIP).getD []
    else buf0
  let port16 := metadata.DstPort % 65536
  buf1 ++ [toByte (port16 / 256), toByte port16]

/-- The reader of the wire format as the spec words it: one address-type
byte, then the address (one length byte and that many bytes for a domain, 4
bytes for IPv4, 16 bytes for IPv6), then the port as 2 bytes big-endian.
Returns address type, address bytes and port. -/
def parseSocksAddr (b : List Byte) : Option (Nat × List Byte × Nat) :=
  match b with
  | [] => none
  | t :: rest =>
    if t.val = AtypDomainName then
      match rest with
      | [] => none
      | len :: r2 =>
        match r2.drop len.val with
        | [hi, lo] =>
          if len.val ≤ r2.length then some (t.val, r2.take len.val, hi.val * 256 + lo.val)
          else none
        | _ => none
    else if t.val = AtypIPv4 then
      match rest.drop 4 with
      | [hi, lo] =>
        if 4 ≤ rest.length then some (t.val, rest.take 4, hi.val * 256 + lo.val) else none
      | _ => none
    else if t.val = AtypIPv6 then
      match rest.drop 16 with
      | [hi, lo] =>
        if 16 ≤ rest.length then some (t.val, rest.take 16, hi.val * 256 + lo.val) else none
      | _ => none
    else none

/-- A metadata whose host is 256 bytes long (256 times the letter a). -/
def sampleLongHost : Metadata :=
  { Host := List.replicate 256 97, DstIP := [], DstPort := 443 }

/-- The metadata of `example.com:443`. -/
def sampleDomain : Metadata :=
  { Host := [101, 120, 97, 109, 112, 108, 101, 46, 99, 111, 109], DstIP := [], DstPort := 443 }

/-- The metadata of `1.2.3.4:80`. -/
def sampleV4 : Metadata := { Host := [], DstIP := [1, 2, 3, 4], DstPort := 80 }

/-- A metadata without host whose destination IP is a slice of 5 bytes. -/
def sampleOddIP : Metadata := { Host := [], DstIP := [1, 2, 3, 4, 5], DstPort := 80 }

/-! ## `filters.go`: the geo-IP fallback filter -/

/-- Go `strings.EqualFold`: equality under Unicode simple case folding.  The
folding table of the Go library is the parameter `fold`, which sends a
character to the representative of its folding orbit. -/
def EqualFold (fold : Char → Char) (s t : Str) : Bool :=
  decide (s.map fold = t.map fold)

/-- Case folding restricted to the ASCII letters. -/
def asciiFold (c : Char) : Char :=
  if 65 ≤ c.toNat ∧ c.toNat ≤ 90 then Char.ofNat (c.toNat + 32) else c

/-- Go `net.IP.IsPrivate`. -/
def IsPrivate (ip : List Byte) : Bool :=
  match To4 ip with
  | some ip4 =>
    (ip4.getD 0 0).val == 10 ||
      ((ip4.getD 0 0).val == 172 && (ip4.getD 1 0).val &&& 240 == 16) ||
      ((ip4.getD 0 0).val == 192 && (ip4.getD 1 0).val == 168)
  | none => ip.length == 16 && (ip.getD 0 0).val &&& 254 == 252

/-- Source `geoipFilter.Match`; `lookup` is the MMDB lookup, from an IP to the
ISO code of its country record. -/
def geoipFilter.Match (fold : Char → Char) (lookup : List Byte → Str) (code : Str)
    (ip : List Byte) : Bool :=
  !EqualFold fold (lookup ip) code && !IsPrivate ip

/-- RFC 1918 private address space, as ranges: 10.0.0.0/8, 172.16.0.0/12,
192.168.0.0/16 (for an IPv4 address, also when it is mapped into IPv6). -/
def inRFC1918 (ip : List Byte) : Prop :=
  ∃ a b c d : Byte, To4 ip = some [a, b, c, d] ∧
    (a.val = 10 ∨ (a.val = 172 ∧ 16 ≤ b.val ∧ b.val ≤ 31) ∨ (a.val = 192 ∧ b.val = 168))

/-- RFC 4193 unique local addresses: fc00::/7. -/
def inULA (ip : List Byte) : Prop :=
  ip.length = 16 ∧ ((ip.getD 0 0).val = 252 ∨ (ip.getD 0 0).val = 253)

/-- Link-local addresses: 169.254.0.0/16 and fe80::/10. -/
def inLinkLocal (ip : List Byte) : Prop :=
  (∃ c d : Byte, To4 ip = some [169, 254, c, d]) ∨
    (ip.length = 16 ∧ (ip.getD 0 0).val = 254 ∧
      128 ≤ (ip.getD 1 0).val ∧ (ip.getD 1 0).val ≤ 191)

/-- The link-local address 169.254.1.1. -/
def sampleLinkLocal : List Byte := [169, 254, 1, 1]

/-- The private address 172.31.1.1. -/
def samplePrivate : List Byte := [172, 31, 1, 1]

/-! ## `upgrade.go`: upgrade requests -/

/-- Go `unicode.IsSpace`. -/
def isSpace (c : Char) : Bool :=
  let n := c.toNat
  (9 ≤ n && n ≤ 13) || n == 32 || n == 133 || n == 160 || n == 5760 ||
    (8192 ≤ n && n ≤ 8202) || n == 8232 || n == 8233 || n == 8239 || n == 8287 || n == 12288

/-- Go `strings.TrimSpace`. -/
def TrimSpace (s : Str) : Str :=
  ((s.dropWhile isSpace).reverse.dropWhile isSpace).reverse

/-- Go `strings.Split` for a separator of one ASCII character. -/
def Split (s : Str) (sep : Char) : List Str :=
  match s with
  | [] => [[]]
  | x :: xs =>
    if x = sep then [] :: Split xs sep
    else
      match Split xs sep with
      | [] => [[x]]
      | p :: ps => (x :: p) :: ps

/-- The part of `http.Request` that `isUpgradeRequest` reads: the header map,
as the function from a key to its values; a key that is absent has no values,
which is what indexing the Go map gives (the nil slice). -/
structure Request where
  Header : Str → List Str

/-- The inner loop of source `isUpgradeRequest`, over the elements of one
header value. -/
def upgradeInElms (fold : Char → Char) : List Str → Bool
  | [] => false
  | elm :: rest =>
    if EqualFold fold (TrimSpace elm) "Upgrade".toList = true then true
    else upgradeInElms fold rest

/-- The outer loop of source `isUpgradeRequest`, over the header values. -/
def upgradeInHeaders (fold : Char → Char) : List Str → Bool
  | [] => false
  | header :: rest =>
    if upgradeInElms fold (Split header ',') = true then true
    else upgradeInHeaders fold rest

/-- Source `isUpgradeRequest`. -/
def isUpgradeRequest (fold : Char → Char) (req : Request) : Bool :=
  upgradeInHeaders fold (req.Header "Connection".toList)

/-- A string of whitespace characters only. -/
def allSpace (ws : Str) : Prop := ∀ c ∈ ws, isSpace c = true

/-- The string `tok` is one of the pieces into which the commas cut `header`:
it holds no comma, and in `header` it reaches from the start or from just
after a comma to the end or to just before a comma. -/
def isCommaElement (header tok : Str) : Prop :=
  ∃ a b : Str, header = a ++ tok ++ b ∧ ',' ∉ tok ∧
    (a = [] ∨ ∃ a2, a = a2 ++ [',']) ∧ (b = [] ∨ ∃ b2, b = ',' :: b2)

/-- The word "upgrade" in any mixture of upper and lower case. -/
def isUpgradeWord (w : Str) : Prop :=
  ∃ c1 c2 c3 c4 c5 c6 c7 : Char, w = [c1, c2, c3, c4, c5, c6, c7] ∧
    (c1 = 'U' ∨ c1 = 'u') ∧ (c2 = 'P' ∨ c2 = 'p') ∧ (c3 = 'G' ∨ c3 = 'g') ∧
    (c4 = 'R' ∨ c4 = 'r') ∧ (c5 = 'A' ∨ c5 = 'a') ∧ (c6 = 'D' ∨ c6 = 'd') ∧
    (c7 = 'E' ∨ c7 = 'e')

/-- The string `tok` is the word "upgrade", in any case, with whitespace
around it. -/
def isUpgradeToken (tok : Str) : Prop :=
  ∃ ws1 core ws2 : Str, tok = ws1 ++ core ++ ws2 ∧ allSpace ws1 ∧ allSpace ws2 ∧
    isUpgradeWord core

/-- The string neither starts nor ends with a whitespace character. -/
def noOuterSpace (w : Str) : Prop :=
  (∀ c, w.head? = some c → isSpace c = false) ∧ (∀ c, w.getLast? = some c → isSpace c = false)

/-- Apart from the whitespace around it, `tok` is a string that contains a
seven-letter word as a proper substring. -/
def properlyContainsWord (tok : Str) : Prop :=
  ∃ ws1 pre u post ws2 : Str, tok = ws1 ++ (pre ++ u ++ post) ++ ws2 ∧
    allSpace ws1 ∧ allSpace ws2 ∧ noOuterSpace (pre ++ u ++ post) ∧
    u.length = 7 ∧ (pre ≠ [] ∨ post ≠ [])

/-- What the case-folding table of the Go library does on the letters of
"Upgrade": the folding orbit of each of them consists of its upper-case and
its lower-case form and of nothing else. -/
def upgradeOrbits (fold : Char → Char) : Prop :=
  ∀ c : Char,
    (fold c = fold 'U' ↔ (c = 'U' ∨ c = 'u')) ∧ (fold c = fold 'p' ↔ (c = 'P' ∨ c = 'p')) ∧
    (fold c = fold 'g' ↔ (c = 'G' ∨ c = 'g')) ∧ (fold c = fold 'r' ↔ (c = 'R' ∨ c = 'r')) ∧
    (fold c = fold 'a' ↔ (c = 'A' ∨ c = 'a')) ∧ (fold c = fold 'd' ↔ (c = 'D' ∨ c = 'd')) ∧
    (fold c = fold 'e' ↔ (c = 'E' ∨ c = 'e'))

/-- A websocket handshake request. -/
def sampleUpgradeReq : Request :=
  { Header := fun k =>
      if k = "Connection".toList then ["keep-alive, upgrade ".toList]
      else if k = "Upgrade".toList then ["websocket".toList]
      else [] }

/-- A request without Connection header. -/
def sampleNoConnectionReq : Request :=
  { Header := fun k => if k = "Upgrade".toList then ["websocket".toList] else [] }

/-- A request whose Connection header is "upgraded". -/
def sampleUpgradedReq : Request :=
  { Header := fun k => if k = "Connection".toList then ["upgraded".toList] else [] }

/-! ## `listener.go`: static tunnels -/

/-- Modelled from the spec: a tunnel of the configuration (`config.Tunnel`,
source not at hand): `{network: list of "tcp"|"udp", address, target, proxy}`. -/
structure Tunnel where
  Network : List Str
  Address : Str
  Target : Str
  Proxy : Str
  deriving DecidableEq, Repr

/-- The local type `addrProxy` of source `PatchTunnel`. -/
structure addrProxy where
  network : Str
  addr : Str
  target : Str
  proxy : Str
  deriving DecidableEq, Repr

/-- A tunnel listener handle (`*tunnel.Listener` or `*tunnel.PacketConn`):
what it was created for, and the serial number of the creation. -/
structure TunnelHandle where
  addr : Str
  target : Str
  proxy : Str
  serial : Nat
  deriving DecidableEq, Repr

/-- What the code does not determine: whether `tunnel.New` and `tunnel.NewUDP`
succeed (the operating system), and the order in which `lo.Keys` visits the
keys of a map (the Go runtime), given as a rearrangement of the list of keys. -/
structure TunnelEnv where
  newTCP : Str → Str → Str → Bool
  newUDP : Str → Str → Str → Bool
  order : List Str → List Str

/-- The environment in which every tunnel listener creation succeeds and the
keys are visited in the order of insertion. -/
def TunnelEnv.ok : TunnelEnv :=
  { newTCP := fun _ _ _ => true, newUDP := fun _ _ _ => true, order := fun l => l }

/-- The keys of a map are visited exactly once each. -/
def TunnelEnv.orderOk (env : TunnelEnv) : Prop := ∀ l, (env.order l).Perm l

/-- Every tunnel listener creation succeeds. -/
def TunnelEnv.allSucceed (env : TunnelEnv) : Prop :=
  (∀ a t p, env.newTCP a t p = true) ∧ (∀ a t p, env.newUDP a t p = true)

/-- The package-level variables `tunnelTCPListeners` and `tunnelUDPListeners`,
with a ghost creation counter. -/
structure TunnelRegistry where
  tunnelTCPListeners : List (Str × TunnelHandle)
  tunnelUDPListeners : List (Str × TunnelHandle)
  nextSerial : Nat
  deriving DecidableEq, Repr

/-- The initial values of the tunnel maps. -/
def TunnelRegistry.init : TunnelRegistry :=
  { tunnelTCPListeners := [], tunnelUDPListeners := [], nextSerial := 0 }

/-- The key `fmt.Sprintf("%s/%s/%s", addr, target, proxy)`. -/
def tunnelKey (addr target proxy : Str) : Str :=
  addr ++ '/' :: (target ++ '/' :: proxy)

/-- The function that source `PatchTunnel` maps over the keys of a tunnel
map: split on "/" and take parts 0, 1 and 2.  `none` stands for the panic of
an index out of range. -/
def keyToElm (network : Str) (key : Str) : Option addrProxy :=
  match Split key '/' with
  | p0 :: p1 :: p2 :: _ => some { network := network, addr := p0, target := p1, proxy := p2 }
  | _ => none

/-- `lo.Map` with a function that may panic. -/
def mapOpt {α β : Type} (f : α → Option β) : List α → Option (List β)
  | [] => some []
  | a :: rest =>
    match f a with
    | none => none
    | some b =>
      match mapOpt f rest with
      | none => none
      | some bs => some (b :: bs)

/-- The elements of a list without repetition, first occurrences kept
(`lo.Union` of the parts of the list). -/
def uniq {α : Type} [DecidableEq α] : List α → List α
  | [] => []
  | a :: rest => a :: (uniq rest).filter (fun x => decide (x ≠ a))

/-- Third-party `lo.Union` of two lists. -/
def loUnion {α : Type} [DecidableEq α] (l1 l2 : List α) : List α := uniq (l1 ++ l2)

/-- Third-party `lo.Difference`. -/
def loDifference {α : Type} [DecidableEq α] (l1 l2 : List α) : List α × List α :=
  (l1.filter (fun x => decide (x ∉ l2)), l2.filter (fun x => decide (x ∉ l1)))

/-- The `lo.FlatMap` of source `PatchTunnel`: one element per tunnel and
declared network. -/
def newElms : List Tunnel → List addrProxy
  | [] => []
  | t :: rest =>
    t.Network.map (fun network =>
      { network := network, addr := t.Address, target := t.Target, proxy := t.Proxy })
      ++ newElms rest

/-- Modelled from the spec: `Close` of a tunnel listener (package `tunnel`,
source not at hand).  Closing a listener sets its close flag and then closes
the socket, so `Close` called through the nil pointer that a missing map key
yields is a nil dereference; `none` stands for that panic.  Errors of closing
the socket are discarded by the caller. -/
def tunnelClose (l : Option TunnelHandle) : Option Unit :=
  match l with
  | none => none
  | some _ => some ()

/-- One round of the close loop of source `PatchTunnel`; `none` stands for a
panic. -/
def closeTunnel (elm : addrProxy) (s : TunnelRegistry) : Option TunnelRegistry :=
  let key := tunnelKey elm.addr elm.target elm.proxy
  if elm.network = "tcp".toList then
    match tunnelClose (mapGet s.tunnelTCPListeners key) with
    | none => none
    | some _ => some { s with tunnelTCPListeners := mapDel s.tunnelTCPListeners key }
  else
    match tunnelClose (mapGet s.tunnelUDPListeners key) with
    | none => none
    | some _ => some { s with tunnelUDPListeners := mapDel s.tunnelUDPListeners key }

/-- The close loop of source `PatchTunnel`. -/
def closeTunnels : List addrProxy → TunnelRegistry → Option TunnelRegistry
  | [], s => some s
  | elm :: rest, s =>
    match closeTunnel elm s with
    | none => none
    | some s1 => closeTunnels rest s1

/-- One round of the create loop of source `PatchTunnel`. -/
def createTunnel (env : TunnelEnv) (s : TunnelRegistry) (elm : addrProxy) : TunnelRegistry :=
  let key := tunnelKey elm.addr elm.target elm.proxy
  if elm.network = "tcp".toList then
    if env.newTCP elm.addr elm.target elm.proxy = true then
      { s with
        tunnelTCPListeners := mapSet s.tunnelTCPListeners key
          { addr := elm.addr, target := elm.target, proxy := elm.proxy, serial := s.nextSerial },
        nextSerial := s.nextSerial + 1 }
    else s
  else
    if env.newUDP elm.addr elm.target elm.proxy = true then
      { s with
        tunnelUDPListeners := mapSet s.tunnelUDPListeners key
          { addr := elm.addr, target := elm.target, proxy := elm.proxy, serial := s.nextSerial },
        nextSerial := s.nextSerial + 1 }
    else s

/-- Source `PatchTunnel` (the mutex is not modelled); `none` stands for a panic. -/
def PatchTunnel (env : TunnelEnv) (tunnels : List Tunnel) (s : TunnelRegistry) :
    Option TunnelRegistry :=
  match mapOpt (keyToElm "tcp".toList) (env.order (mapKeys s.tunnelTCPListeners)) with
  | none => none
  | some tcpOld =>
    match mapOpt (keyToElm "udp".toList) (env.order (mapKeys s.tunnelUDPListeners)) with
    | none => none
    | some udpOld =>
      let oldElm := loUnion tcpOld udpOld
      let newElm := newElms tunnels
      let d := loDifference oldElm newElm
      match closeTunnels d.1 s with
      | none => none
      | some s1 => some (d.2.foldl (createTunnel env) s1)

/-- No component of the tunnel contains the separator "/". -/
def Tunnel.slashFree (t : Tunnel) : Prop :=
  '/' ∉ t.Address ∧ '/' ∉ t.Target ∧ '/' ∉ t.Proxy

/-- Every declared network is "tcp" or "udp". -/
def Tunnel.netOk (t : Tunnel) : Prop :=
  ∀ n ∈ t.Network, n = "tcp".toList ∨ n = "udp".toList

/-- A key rendered from three components free of "/". -/
def goodKey (k : Str) : Prop :=
  ∃ a t p : Str, '/' ∉ a ∧ '/' ∉ t ∧ '/' ∉ p ∧ k = tunnelKey a t p

/-- All keys of both tunnel maps are rendered from components free of "/". -/
def keysOk (s : TunnelRegistry) : Prop :=
  (∀ k ∈ mapKeys s.tunnelTCPListeners, goodKey k) ∧
  (∀ k ∈ mapKeys s.tunnelUDPListeners, goodKey k)

/-- A TCP tunnel through the proxy named "hk/01". -/
def sampleTunnelSlash : Tunnel :=
  { Network := ["tcp".toList], Address := "127.0.0.1:6553".toList,
    Target := "8.8.8.8:53".toList, Proxy := "hk/01".toList }

/-- A TCP tunnel with the same address and target through the proxy named "hk". -/
def sampleTunnelHk : Tunnel :=
  { Network := ["tcp".toList], Address := "127.0.0.1:6553".toList,
    Target := "8.8.8.8:53".toList, Proxy := "hk".toList }

/-- A TCP and UDP tunnel through the proxy named "proxy". -/
def sampleTunnel : Tunnel :=
  { Network := ["tcp".toList, "udp".toList], Address := "127.0.0.1:6553".toList,
    Target := "8.8.8.8:53".toList, Proxy := "proxy".toList }

/-- An element whose three components are free of "/". -/
def addrProxy.slashFree (e : addrProxy) : Prop :=
  '/' ∉ e.addr ∧ '/' ∉ e.target ∧ '/' ∉ e.proxy

/-! # Theorems -/

/-! ## Lemmas: maps -/

theorem mem_mapKeys_mapDel {K V : Type} [DecidableEq K] (m : List (K × V)) (k x : K) :
    x ∈ mapKeys (mapDel m k) ↔ x ∈ mapKeys m ∧ x ≠ k := by
  unfold mapKeys mapDel
  simp only [List.mem_map, List.mem_filter, decide_eq_true_eq]
  constructor
  · rintro ⟨e, ⟨he, hne⟩, rfl⟩
    exact ⟨⟨e, he, rfl⟩, hne⟩
  · rintro ⟨⟨e, he, rfl⟩, hne⟩
    exact ⟨e, ⟨he, hne⟩, rfl⟩

theorem mem_mapKeys_mapSet {K V : Type} [DecidableEq K] (m : List (K × V)) (k x : K) (v : V) :
    x ∈ mapKeys (mapSet m k v) ↔ x ∈ mapKeys m ∨ x = k := by
  unfold mapSet
  have h := mem_mapKeys_mapDel m k x
  unfold mapKeys at h ⊢
  rw [List.map_append, List.mem_append, h]
  simp only [List.map_cons, List.map_nil, List.mem_singleton]
  by_cases hx : x = k
  · simp [hx]
  · simp [hx]

theorem mapGet_isSome_iff {K V : Type} [DecidableEq K] (m : List (K × V)) (k : K) :
    (mapGet m k).isSome = true ↔ k ∈ mapKeys m := by
  induction m with
  | nil => simp [mapGet, mapKeys]
  | cons e rest ih =>
    obtain ⟨k1, v⟩ := e
    unfold mapGet
    by_cases h : k1 = k
    · simp [h, mapKeys]
    · have h2 : ¬ k = k1 := fun hh => h hh.symm
      simp only [h, if_false, ih]
      simp [mapKeys, h2]

theorem mapGet_eq_none_iff {K V : Type} [DecidableEq K] (m : List (K × V)) (k : K) :
    mapGet m k = none ↔ k ∉ mapKeys m := by
  rw [← mapGet_isSome_iff]
  cases mapGet m k <;> simp

theorem mapGet_mem {K V : Type} [DecidableEq K] (m : List (K × V)) (k : K) (v : V)
    (h : mapGet m k = some v) : (k, v) ∈ m := by
  induction m with
  | nil => simp [mapGet] at h
  | cons e rest ih =>
    obtain ⟨k1, v1⟩ := e
    unfold mapGet at h
    by_cases hk : k1 = k
    · simp only [hk, if_true, Option.some.injEq] at h
      simp [hk, h]
    · simp only [hk, if_false] at h
      exact List.mem_cons_of_mem _ (ih h)

theorem mapDel_eq_self {K V : Type} [DecidableEq K] (m : List (K × V)) (k : K)
    (h : k ∉ mapKeys m) : mapDel m k = m := by
  unfold mapDel
  rw [List.filter_eq_self]
  intro e he
  simp only [decide_eq_true_eq]
  intro hk
  exact h (by unfold mapKeys; exact List.mem_map.mpr ⟨e, he, hk⟩)

/-! ## Lemmas: `getNeedCloseAndCreateInbound` -/

theorem allTrue_mapDel (m : List (Inbound × Bool)) (k : Inbound) (h : allTrue m) :
    allTrue (mapDel m k) := by
  intro e he
  unfold mapDel at he
  exact h e (List.mem_filter.mp he).1

theorem allTrue_mapSet (m : List (Inbound × Bool)) (k : Inbound) (h : allTrue m) :
    allTrue (mapSet m k true) := by
  intro e he
  unfold mapSet at he
  rcases List.mem_append.mp he with h1 | h1
  · exact allTrue_mapDel m k h e h1
  · simp only [List.mem_singleton] at h1
    rw [h1]

theorem getD_true_iff (m : List (Inbound × Bool)) (k : Inbound) (h : allTrue m) :
    (mapGet m k).getD false = true ↔ k ∈ mapKeys m := by
  rw [← mapGet_isSome_iff]
  cases hg : mapGet m k with
  | none => simp
  | some v =>
    have := h _ (mapGet_mem m k v hg)
    simp at this
    simp [this]

theorem needCloseMap_spec (old : List Inbound) (m : List (Inbound × Bool)) (hm : allTrue m) :
    allTrue (old.foldl (fun m i => mapSet m i true) m) ∧
    ∀ x, x ∈ mapKeys (old.foldl (fun m i => mapSet m i true) m) ↔ x ∈ mapKeys m ∨ x ∈ old := by
  induction old generalizing m with
  | nil => simp [hm]
  | cons a rest ih =>
    simp only [List.foldl_cons]
    obtain ⟨h1, h2⟩ := ih (mapSet m a true) (allTrue_mapSet m a hm)
    refine ⟨h1, fun x => ?_⟩
    rw [h2, mem_mapKeys_mapSet]
    simp only [List.mem_cons]
    tauto

theorem needStep_fold_spec (new : List Inbound) (m : List (Inbound × Bool)) (nc : List Inbound)
    (hm : allTrue m) :
    (∀ x, x ∈ mapKeys (new.foldl needStep (m, nc)).1 ↔ x ∈ mapKeys m ∧ x ∉ new) ∧
    (∀ x, x ∈ (new.foldl needStep (m, nc)).2 → x ∈ nc ∨ x ∈ new) ∧
    (∀ x, x ∈ nc ∨ (x ∈ new ∧ x ∉ mapKeys m) → x ∈ (new.foldl needStep (m, nc)).2) ∧
    (new.Nodup → ∀ x, x ∈ (new.foldl needStep (m, nc)).2 → x ∈ nc ∨ (x ∈ new ∧ x ∉ mapKeys m)) := by
  induction new generalizing m nc with
  | nil => simp
  | cons a rest ih =>
    simp only [List.foldl_cons]
    by_cases ha : a ∈ mapKeys m
    · have hstep : needStep (m, nc) a = (mapDel m a, nc) := by
        unfold needStep
        simp only [(getD_true_iff m a hm).mpr ha, if_true]
      rw [hstep]
      obtain ⟨h1, h2, h3, h4⟩ := ih (mapDel m a) nc (allTrue_mapDel m a hm)
      refine ⟨?_, ?_, ?_, ?_⟩
      · intro x
        rw [h1, mem_mapKeys_mapDel]
        simp only [List.mem_cons]
        tauto
      · intro x hx
        rcases h2 x hx with h | h
        · exact Or.inl h
        · exact Or.inr (List.mem_cons_of_mem _ h)
      · intro x hx
        apply h3
        rcases hx with h | ⟨h, hn⟩
        · exact Or.inl h
        · right
          rw [mem_mapKeys_mapDel]
          rcases List.mem_cons.mp h with rfl | h
          · exact absurd ha hn
          · exact ⟨h, fun hh => hn hh.1⟩
      · intro hnd x hx
        have hnd2 := List.nodup_cons.mp hnd
        rcases h4 hnd2.2 x hx with h | ⟨h, hn⟩
        · exact Or.inl h
        · right
          refine ⟨List.mem_cons_of_mem _ h, ?_⟩
          rw [mem_mapKeys_mapDel] at hn
          intro hxm
          apply hn
          refine ⟨hxm, ?_⟩
          rintro rfl
          exact hnd2.1 h
    · have hstep : needStep (m, nc) a = (m, nc ++ [a]) := by
        unfold needStep
        have : ¬ ((mapGet m a).getD false = true) := fun h => ha ((getD_true_iff m a hm).mp h)
        rw [if_neg this]
      rw [hstep]
      obtain ⟨h1, h2, h3, h4⟩ := ih m (nc ++ [a]) hm
      refine ⟨?_, ?_, ?_, ?_⟩
      · intro x
        rw [h1]
        simp only [List.mem_cons]
        constructor
        · rintro ⟨hx, hn⟩
          refine ⟨hx, ?_⟩
          rintro (rfl | h)
          · exact ha hx
          · exact hn h
        · rintro ⟨hx, hn⟩
          exact ⟨hx, fun h => hn (Or.inr h)⟩
      · intro x hx
        rcases h2 x hx with h | h
        · rcases List.mem_append.mp h with h | h
          · exact Or.inl h
          · right
            simp only [List.mem_singleton] at h
            simp [h]
        · exact Or.inr (List.mem_cons_of_mem _ h)
      · intro x hx
        apply h3
        rcases hx with h | ⟨h, hn⟩
        · exact Or.inl (List.mem_append_left _ h)
        · rcases List.mem_cons.mp h with rfl | h
          · exact Or.inl (List.mem_append_right _ (List.mem_singleton.mpr rfl))
          · exact Or.inr ⟨h, hn⟩
      · intro hnd x hx
        have hnd2 := List.nodup_cons.mp hnd
        rcases h4 hnd2.2 x hx with h | ⟨h, hn⟩
        · rcases List.mem_append.mp h with h | h
          · exact Or.inl h
          · right
            simp only [List.mem_singleton] at h
            subst h
            exact ⟨List.mem_cons_self _ _, ha⟩
        · exact Or.inr ⟨List.mem_cons_of_mem _ h, hn⟩

/-- The close list holds exactly the descriptors of the old list that are
absent from the new one, whatever the two lists are. -/
theorem needClose_mem (order : List Inbound → List Inbound) (hord : ∀ l, (order l).Perm l)
    (old new : List Inbound) (x : Inbound) :
    x ∈ (getNeedCloseAndCreateInbound order old new).1 ↔ x ∈ old ∧ x ∉ new := by
  unfold getNeedCloseAndCreateInbound
  have hall : allTrue ([] : List (Inbound × Bool)) := fun e he => by simp at he
  obtain ⟨h1, h2⟩ := needCloseMap_spec old [] hall
  obtain ⟨h3, -, -, -⟩ := needStep_fold_spec new _ [] h1
  simp only
  rw [(hord _).mem_iff, h3, h2]
  simp [mapKeys]

/-- The create list holds only descriptors of the new list, and every
descriptor of the new list that is absent from the old one. -/
theorem needCreate_bounds (order : List Inbound → List Inbound) (old new : List Inbound)
    (x : Inbound) :
    (x ∈ (getNeedCloseAndCreateInbound order old new).2 → x ∈ new) ∧
    (x ∈ new ∧ x ∉ old → x ∈ (getNeedCloseAndCreateInbound order old new).2) := by
  unfold getNeedCloseAndCreateInbound
  have hall : allTrue ([] : List (Inbound × Bool)) := fun e he => by simp at he
  obtain ⟨h1, h2⟩ := needCloseMap_spec old [] hall
  obtain ⟨-, h4, h5, -⟩ := needStep_fold_spec new _ [] h1
  simp only
  constructor
  · intro hx
    rcases h4 x hx with h | h
    · simp at h
    · exact h
  · rintro ⟨hx, hn⟩
    apply h5
    right
    refine ⟨hx, ?_⟩
    rw [h2]
    simp [mapKeys, hn]

/-- When the new list has no repeated descriptor, the create list holds
exactly the descriptors of the new list that are absent from the old one. -/
theorem needCreate_mem_of_nodup (order : List Inbound → List Inbound) (old new : List Inbound)
    (hnd : new.Nodup) (x : Inbound) :
    x ∈ (getNeedCloseAndCreateInbound order old new).2 ↔ x ∈ new ∧ x ∉ old := by
  refine ⟨?_, (needCreate_bounds order old new x).2⟩
  unfold getNeedCloseAndCreateInbound
  have hall : allTrue ([] : List (Inbound × Bool)) := fun e he => by simp at he
  obtain ⟨h1, h2⟩ := needCloseMap_spec old [] hall
  obtain ⟨-, -, -, h6⟩ := needStep_fold_spec new _ [] h1
  simp only
  intro hx
  rcases h6 hnd x hx with h | ⟨h, hn⟩
  · simp at h
  · refine ⟨h, ?_⟩
    rw [h2] at hn
    simp [mapKeys] at hn
    exact hn

/-! ## Lemmas: the registry operations -/

theorem mem_getInbounds (env : Env) (hord : env.orderOk) (s : Registry) (x : Inbound) :
    x ∈ getInbounds env s ↔ x ∈ mapKeys s.tcpListeners ∨ x ∈ mapKeys s.udpListeners := by
  unfold getInbounds
  simp only [List.mem_append, List.mem_filter, Option.isNone_iff_eq_none, mapGet_eq_none_iff,
    (hord _).mem_iff]
  tauto

theorem closeListener_tcp (k : Inbound) (s : Registry) :
    (closeListener k s).tcpListeners = mapDel s.tcpListeners k := by
  unfold closeListener
  cases h1 : mapGet s.tcpListeners k with
  | none =>
    have h2 := mapDel_eq_self _ _ ((mapGet_eq_none_iff _ _).mp h1)
    simp only [h1]
    split <;> simp [h2]
  | some l =>
    simp only [h1]
    split <;> rfl

theorem closeListener_udp (k : Inbound) (s : Registry) :
    (closeListener k s).udpListeners = mapDel s.udpListeners k := by
  unfold closeListener
  cases h1 : mapGet s.tcpListeners k with
  | none =>
    simp only [h1]
    cases h2 : mapGet s.udpListeners k with
    | none => simp [mapDel_eq_self _ _ ((mapGet_eq_none_iff _ _).mp h2)]
    | some l => simp
  | some l =>
    simp only [h1]
    cases h2 : mapGet s.udpListeners k with
    | none => simp [mapDel_eq_self _ _ ((mapGet_eq_none_iff _ _).mp h2)]
    | some l => simp

theorem closeListener_cfg (k : Inbound) (s : Registry) :
    (closeListener k s).allowLan = s.allowLan ∧ (closeListener k s).bindAddress = s.bindAddress := by
  unfold closeListener
  cases h1 : mapGet s.tcpListeners k <;> cases h2 : mapGet s.udpListeners k <;> simp [h1, h2]

theorem closeFold_spec (l : List Inbound) (s : Registry) :
    (∀ x, x ∈ mapKeys (l.foldl (fun st i => closeListener i st) s).tcpListeners ↔
      x ∈ mapKeys s.tcpListeners ∧ x ∉ l) ∧
    (∀ x, x ∈ mapKeys (l.foldl (fun st i => closeListener i st) s).udpListeners ↔
      x ∈ mapKeys s.udpListeners ∧ x ∉ l) ∧
    (l.foldl (fun st i => closeListener i st) s).allowLan = s.allowLan ∧
    (l.foldl (fun st i => closeListener i st) s).bindAddress = s.bindAddress := by
  induction l generalizing s with
  | nil => simp
  | cons a rest ih =>
    simp only [List.foldl_cons]
    obtain ⟨h1, h2, h3, h4⟩ := ih (closeListener a s)
    refine ⟨?_, ?_, ?_, ?_⟩
    · intro x
      rw [h1, closeListener_tcp, mem_mapKeys_mapDel]
      simp only [List.mem_cons]
      tauto
    · intro x
      rw [h2, closeListener_udp, mem_mapKeys_mapDel]
      simp only [List.mem_cons]
      tauto
    · rw [h3, (closeListener_cfg a s).1]
    · rw [h4, (closeListener_cfg a s).2]

theorem createListener_of_portIsZero (env : Env) (k : Inbound) (s : Registry)
    (h : portIsZero k.BindAddress = true) : createListener env k s = s := by
  unfold createListener
  simp [h]

theorem createListener_of_unsupported (env : Env) (k : Inbound) (s : Registry)
    (h : supported k.Typ = false) : createListener env k s = s := by
  unfold createListener
  unfold supported at h
  cases ht : tcpListenerCreators k.Typ <;> cases hu : udpListenerCreators k.Typ <;>
    simp_all

theorem createListener_spec (env : Env) (henv : env.allSucceed) (k : Inbound)
    (s : Registry) :
    (∀ x, x ∈ mapKeys (createListener env k s).tcpListeners ↔
      x ∈ mapKeys s.tcpListeners ∨
        (x = k ∧ portIsZero k.BindAddress = false ∧ (tcpListenerCreators k.Typ).isSome = true)) ∧
    (∀ x, x ∈ mapKeys (createListener env k s).udpListeners ↔
      x ∈ mapKeys s.udpListeners ∨
        (x = k ∧ portIsZero k.BindAddress = false ∧ (udpListenerCreators k.Typ).isSome = true)) ∧
    (createListener env k s).allowLan = s.allowLan ∧
    (createListener env k s).bindAddress = s.bindAddress := by
  by_cases hz : portIsZero k.BindAddress = true
  · rw [createListener_of_portIsZero env k s hz]
    simp [hz]
  · have hz2 : portIsZero k.BindAddress = false := by simpa using hz
    unfold createListener
    rw [if_neg hz]
    obtain ⟨t, a, f⟩ := k
    cases t <;>
      simp [tcpListenerCreators, udpListenerCreators, createListenerUDP, callCreator,
        henv _ _, mem_mapKeys_mapSet, hz2]

theorem createFold_spec (env : Env) (henv : env.allSucceed) (hord : env.orderOk) (l : List Inbound) (s : Registry) :
    (∀ x, x ∈ getInbounds env (l.foldl (fun st i => createListener env i st) s) ↔
      x ∈ getInbounds env s ∨
        (x ∈ l ∧ portIsZero x.BindAddress = false ∧ supported x.Typ = true)) ∧
    (l.foldl (fun st i => createListener env i st) s).allowLan = s.allowLan ∧
    (l.foldl (fun st i => createListener env i st) s).bindAddress = s.bindAddress := by
  induction l generalizing s with
  | nil => simp
  | cons a rest ih =>
    simp only [List.foldl_cons]
    obtain ⟨h1, h2, h3⟩ := ih (createListener env a s)
    obtain ⟨c1, c2, c3, c4⟩ := createListener_spec env henv a s
    refine ⟨?_, ?_, ?_⟩
    · intro x
      rw [h1, mem_getInbounds env hord, c1, c2, mem_getInbounds env hord]
      simp only [List.mem_cons, supported, Bool.or_eq_true]
      constructor
      · rintro (((h | ⟨rfl, hz, hs⟩) | (h | ⟨rfl, hz, hs⟩)) | ⟨hm, hz, hs⟩)
        · exact Or.inl (Or.inl h)
        · exact Or.inr ⟨Or.inl rfl, hz, Or.inl hs⟩
        · exact Or.inl (Or.inr h)
        · exact Or.inr ⟨Or.inl rfl, hz, Or.inr hs⟩
        · exact Or.inr ⟨Or.inr hm, hz, hs⟩
      · rintro ((h | h) | ⟨rfl | hm, hz, hs⟩)
        · exact Or.inl (Or.inl (Or.inl h))
        · exact Or.inl (Or.inr (Or.inl h))
        · rcases hs with hs | hs
          · exact Or.inl (Or.inl (Or.inr ⟨rfl, hz, hs⟩))
          · exact Or.inl (Or.inr (Or.inr ⟨rfl, hz, hs⟩))
        · exact Or.inr ⟨hm, hz, hs⟩
    · rw [h2, c3]
    · rw [h3, c4]

/-- The live keys after `reCreateListeners`, all creations succeeding: the
old live keys that the new list keeps, and the descriptors of the new list
that can be created. -/
theorem reCreateListeners_mem_getInbounds (env : Env) (henv : env.allSucceed) (hord : env.orderOk) (new : List Inbound)
    (s : Registry) (x : Inbound) :
    x ∈ getInbounds env (reCreateListeners env new s) ↔
      (x ∈ getInbounds env s ∧ x ∈ new) ∨
        (x ∈ new ∧ portIsZero x.BindAddress = false ∧ supported x.Typ = true) := by
  unfold reCreateListeners
  simp only
  obtain ⟨h1, -, -⟩ := createFold_spec env henv hord
    (getNeedCloseAndCreateInbound env.order (getInbounds env s) new).2
    ((getNeedCloseAndCreateInbound env.order (getInbounds env s) new).1.foldl
      (fun st i => closeListener i st) s)
  obtain ⟨k1, k2, -, -⟩ := closeFold_spec (getNeedCloseAndCreateInbound env.order (getInbounds env s) new).1 s
  rw [h1, mem_getInbounds env hord, k1, k2]
  have hc := needClose_mem env.order hord (getInbounds env s) new x
  have hn := needCreate_bounds env.order (getInbounds env s) new x
  rw [hc]
  have hg := mem_getInbounds env hord s x
  constructor
  · rintro ((⟨ht, hnot⟩ | ⟨hu, hnot⟩) | ⟨hm, hz, hs⟩)
    · left
      have hx : x ∈ getInbounds env s := hg.mpr (Or.inl ht)
      exact ⟨hx, by_contra fun hnew => hnot ⟨hx, hnew⟩⟩
    · left
      have hx : x ∈ getInbounds env s := hg.mpr (Or.inr hu)
      exact ⟨hx, by_contra fun hnew => hnot ⟨hx, hnew⟩⟩
    · exact Or.inr ⟨hn.1 hm, hz, hs⟩
  · rintro (⟨hx, hnew⟩ | ⟨hnew, hz, hs⟩)
    · left
      rcases hg.mp hx with h | h
      · exact Or.inl ⟨h, fun hh => hh.2 hnew⟩
      · exact Or.inr ⟨h, fun hh => hh.2 hnew⟩
    · by_cases hx : x ∈ getInbounds env s
      · left
        rcases hg.mp hx with h | h
        · exact Or.inl ⟨h, fun hh => hh.2 hnew⟩
        · exact Or.inr ⟨h, fun hh => hh.2 hnew⟩
      · exact Or.inr ⟨hn.2 ⟨hnew, hx⟩, hz, hs⟩

theorem reCreateListeners_cfg (env : Env) (henv : env.allSucceed) (hord : env.orderOk) (new : List Inbound)
    (s : Registry) :
    (reCreateListeners env new s).allowLan = s.allowLan ∧
    (reCreateListeners env new s).bindAddress = s.bindAddress := by
  unfold reCreateListeners
  simp only
  obtain ⟨-, h2, h3⟩ := createFold_spec env henv hord
    (getNeedCloseAndCreateInbound env.order (getInbounds env s) new).2
    ((getNeedCloseAndCreateInbound env.order (getInbounds env s) new).1.foldl
      (fun st i => closeListener i st) s)
  obtain ⟨-, -, k3, k4⟩ := closeFold_spec (getNeedCloseAndCreateInbound env.order (getInbounds env s) new).1 s
  exact ⟨h2.trans k3, h3.trans k4⟩

theorem foldl_id_of_forall {α β : Type} (f : β → α → β) (l : List α) (s : β)
    (h : ∀ x ∈ l, ∀ st, f st x = st) : l.foldl f s = s := by
  induction l generalizing s with
  | nil => rfl
  | cons a rest ih =>
    simp only [List.foldl_cons]
    rw [h a (List.mem_cons_self _ _) s]
    exact ih s (fun x hx => h x (List.mem_cons_of_mem _ hx))

/-- With a new list free of repetitions and all creations succeeding, a second
`reCreateListeners` with the same list changes nothing: maps, creation counter
and trace (no `closeListener` call, no creator call) stay as they are. -/
theorem reCreateListeners_twice_of_nodup (env : Env) (henv : env.allSucceed) (hord : env.orderOk)
    (new : List Inbound) (hnd : new.Nodup) (s : Registry) :
    reCreateListeners env new (reCreateListeners env new s) = reCreateListeners env new s := by
  generalize hs1 : reCreateListeners env new s = s1
  have hlive : ∀ x, x ∈ getInbounds env s1 ↔
      (x ∈ getInbounds env s ∧ x ∈ new) ∨
        (x ∈ new ∧ portIsZero x.BindAddress = false ∧ supported x.Typ = true) := by
    intro x
    rw [← hs1]
    exact reCreateListeners_mem_getInbounds env henv hord new s x
  unfold reCreateListeners
  simp only
  have hclose : (getNeedCloseAndCreateInbound env.order (getInbounds env s1) new).1 = [] := by
    rw [List.eq_nil_iff_forall_not_mem]
    intro x hx
    rw [needClose_mem env.order hord, hlive] at hx
    rcases hx.1 with ⟨-, h⟩ | ⟨h, -⟩
    · exact hx.2 h
    · exact hx.2 h
  rw [hclose]
  simp only [List.foldl_nil]
  apply foldl_id_of_forall
  intro x hx st
  rw [needCreate_mem_of_nodup _ _ _ hnd, hlive] at hx
  obtain ⟨hnew, hnot⟩ := hx
  by_cases hz : portIsZero x.BindAddress = true
  · exact createListener_of_portIsZero env x st hz
  · have hz2 : portIsZero x.BindAddress = false := by simpa using hz
    by_cases hsup : supported x.Typ = true
    · exact absurd (Or.inr ⟨hnew, hz2, hsup⟩) hnot
    · exact createListener_of_unsupported env x st (by simpa using hsup)

/-! ## Lemmas: strings, host:port splitting, decimal numbers -/

theorem indexByte_isSome_iff (s : Str) (c : Char) : (indexByte s c).isSome = true ↔ c ∈ s := by
  induction s with
  | nil => simp [indexByte]
  | cons x xs ih =>
    unfold indexByte
    by_cases h : x = c
    · simp [h]
    · have h2 : ¬ c = x := fun hh => h hh.symm
      simp [h, h2, ih]

theorem lastIndexByte_eq_none_iff (s : Str) (c : Char) : lastIndexByte s c = none ↔ c ∉ s := by
  induction s with
  | nil => simp [lastIndexByte]
  | cons x xs ih =>
    unfold lastIndexByte
    cases hl : lastIndexByte xs c with
    | none =>
      have := ih.mp hl
      by_cases h : x = c
      · simp [h]
      · have h2 : ¬ c = x := fun hh => h hh.symm
        simp [h, h2, this]
    | some i =>
      have : c ∈ xs := by
        by_contra hc
        rw [ih.mpr hc] at hl
        cases hl
      simp [this]

theorem lastIndexByte_append_cons (h p : Str) (c : Char) (hp : c ∉ p) :
    lastIndexByte (h ++ c :: p) c = some h.length := by
  induction h with
  | nil =>
    simp only [List.nil_append, List.length_nil]
    unfold lastIndexByte
    rw [(lastIndexByte_eq_none_iff p c).mpr hp]
    simp
  | cons x xs ih =>
    simp only [List.cons_append, List.length_cons]
    unfold lastIndexByte
    rw [ih]

theorem SplitHostPort_port (a host port : Str) (h : SplitHostPort a = some (host, port)) :
    ∃ i, lastIndexByte a ':' = some i ∧ port = a.drop (i + 1) := by
  unfold SplitHostPort at h
  cases hl : lastIndexByte a ':' with
  | none => simp [hl] at h
  | some i =>
    refine ⟨i, rfl, ?_⟩
    simp only [hl] at h
    split at h
    · split at h
      · cases h
      · split_ifs at h
        simp only [Option.some.injEq, Prod.mk.injEq] at h
        exact h.2.symm
    · split_ifs at h
      simp only [Option.some.injEq, Prod.mk.injEq] at h
      exact h.2.symm

theorem SplitHostPort_append_port (h p host port : Str) (hp : ':' ∉ p)
    (hs : SplitHostPort (h ++ ':' :: p) = some (host, port)) : port = p := by
  obtain ⟨i, hi, hport⟩ := SplitHostPort_port _ _ _ hs
  rw [lastIndexByte_append_cons h p ':' hp] at hi
  cases hi
  rw [hport]
  simp

theorem portIsZero_of_port (h p : Str) (hp : ':' ∉ p) (hz : p = "0".toList ∨ p = []) :
    portIsZero (h ++ ':' :: p) = true := by
  unfold portIsZero
  cases hs : SplitHostPort (h ++ ':' :: p) with
  | none => rfl
  | some r =>
    obtain ⟨host, port⟩ := r
    have := SplitHostPort_append_port h p host port hp hs
    subst this
    rcases hz with hz | hz <;> simp [hz]

theorem digitChar_toNat (d : Nat) (h : d < 10) : (digitChar d).toNat = 48 + d := by
  interval_cases d <;> rfl

/-- The characters of a decimal rendering are ASCII digits. -/
theorem natDigitsAux_chars (fuel n : Nat) (acc : Str) (c : Char)
    (hc : c ∈ natDigitsAux fuel n acc) : c ∈ acc ∨ (48 ≤ c.toNat ∧ c.toNat ≤ 57) := by
  induction fuel generalizing n acc with
  | zero => exact Or.inl hc
  | succ f ih =>
    unfold natDigitsAux at hc
    split_ifs at hc with hlt
    · rcases List.mem_cons.mp hc with rfl | h
      · right
        rw [digitChar_toNat n hlt]
        omega
      · exact Or.inl h
    · rcases ih _ _ hc with h | h
      · rcases List.mem_cons.mp h with rfl | h
        · right
          rw [digitChar_toNat _ (Nat.mod_lt _ (by norm_num))]
          have := Nat.mod_lt n (show 0 < 10 by norm_num)
          omega
        · exact Or.inl h
      · exact Or.inr h

theorem natDigitsAux_length (fuel n : Nat) (acc : Str) :
    acc.length ≤ (natDigitsAux fuel n acc).length := by
  induction fuel generalizing n acc with
  | zero => exact le_refl _
  | succ f ih =>
    unfold natDigitsAux
    split_ifs
    · simp
    · have := ih (n / 10) (digitChar (n % 10) :: acc)
      simp only [List.length_cons] at this
      omega

theorem formatNat_ne_nil (n : Nat) : formatNat n ≠ [] := by
  unfold formatNat natDigitsAux
  split_ifs
  · simp
  · intro h
    have := natDigitsAux_length n (n / 10) [digitChar (n % 10)]
    rw [h] at this
    simp at this

theorem parseDigits_natDigitsAux (fuel n : Nat) (acc : Str) (h : n < fuel) :
    parseDigits (natDigitsAux fuel n acc) 0 = parseDigits acc n := by
  induction fuel generalizing n acc with
  | zero => omega
  | succ f ih =>
    unfold natDigitsAux
    split_ifs with hlt
    · conv_lhs => unfold parseDigits
      rw [digitChar_toNat n hlt]
      have h1 : 48 ≤ 48 + n ∧ 48 + n ≤ 57 := by omega
      rw [if_pos h1]
      congr 1
      omega
    · have hlt2 : n / 10 < f := by omega
      rw [ih (n / 10) _ hlt2]
      have hm := Nat.mod_lt n (show 0 < 10 by norm_num)
      conv_lhs => unfold parseDigits
      rw [digitChar_toNat _ hm]
      have h1 : 48 ≤ 48 + n % 10 ∧ 48 + n % 10 ≤ 57 := by omega
      rw [if_pos h1]
      congr 1
      omega

theorem parseDigits_formatNat (n : Nat) : parseDigits (formatNat n) 0 = some n := by
  unfold formatNat
  rw [parseDigits_natDigitsAux (n + 1) n [] (by omega)]
  rfl

theorem formatNat_chars (n : Nat) (c : Char) (hc : c ∈ formatNat n) :
    48 ≤ c.toNat ∧ c.toNat ≤ 57 := by
  unfold formatNat at hc
  rcases natDigitsAux_chars _ _ _ _ hc with h | h
  · simp at h
  · exact h

theorem colon_not_mem_formatInt (i : Int) : ':' ∉ formatInt i := by
  intro h
  unfold formatInt at h
  split_ifs at h
  · rcases List.mem_cons.mp h with h | h
    · revert h
      decide
    · have := formatNat_chars _ _ h
      revert this
      decide
  · have := formatNat_chars _ _ h
    revert this
    decide

/-- Rendering with `%d` and reading back with `strconv.Atoi` is the identity
on the values of a 64-bit `int`. -/
theorem Atoi_formatInt (i : Int) (hlo : -(2 : Int) ^ 63 ≤ i) (hhi : i < (2 : Int) ^ 63) :
    Atoi (formatInt i) = some i := by
  unfold formatInt
  by_cases hneg : i < 0
  · rw [if_pos hneg]
    unfold Atoi
    simp only [formatNat_ne_nil, if_false, parseDigits_formatNat]
    have : (-((i.natAbs : Nat) : Int)) = i := by omega
    simp only [if_true, this]
    rw [if_pos ⟨hlo, hhi⟩]
  · rw [if_neg hneg]
    have hne := formatNat_ne_nil i.natAbs
    have hsb : (match formatNat i.natAbs with
        | '-' :: r => (true, r)
        | '+' :: r => (false, r)
        | _ => (false, formatNat i.natAbs)) = (false, formatNat i.natAbs) := by
      split
      · rename_i r heq
        have := formatNat_chars i.natAbs '-' (by rw [heq]; exact List.mem_cons_self _ _)
        exact absurd this (by decide)
      · rename_i r heq
        have := formatNat_chars i.natAbs '+' (by rw [heq]; exact List.mem_cons_self _ _)
        exact absurd this (by decide)
      · rfl
    unfold Atoi
    simp only [hsb, hne, if_false, parseDigits_formatNat]
    have : ((i.natAbs : Nat) : Int) = i := by omega
    simp only [this, Bool.false_eq_true, if_false]
    rw [if_pos ⟨hlo, hhi⟩]

theorem genAddr_shape (host : Str) (port : Int) (allowLan : Bool) :
    ∃ pre, genAddr host port allowLan = pre ++ ':' :: formatInt port := by
  unfold genAddr
  split_ifs
  · exact ⟨[], rfl⟩
  · exact ⟨host, rfl⟩
  · exact ⟨"127.0.0.1".toList, rfl⟩

theorem getPort_genAddr (host : Str) (port : Int) (allowLan : Bool)
    (hlo : -(2 : Int) ^ 63 ≤ port) (hhi : port < (2 : Int) ^ 63)
    (hz : portIsZero (genAddr host port allowLan) = false) :
    getPort (genAddr host port allowLan) = port := by
  obtain ⟨pre, hpre⟩ := genAddr_shape host port allowLan
  rw [hpre] at hz ⊢
  unfold portIsZero at hz
  unfold getPort
  cases hs : SplitHostPort (pre ++ ':' :: formatInt port) with
  | none => simp [hs] at hz
  | some r =>
    obtain ⟨h, p⟩ := r
    have := SplitHostPort_append_port pre _ h p (colon_not_mem_formatInt port) hs
    subst this
    simp only [Atoi_formatInt port hlo hhi]

/-! ## C9: bind-address synthesis and disabled entries -/

/-- C9: `genAddr host port allowLan` is "127.0.0.1:port" when allowLan is
false, ":port" when allowLan is true and host is "*", and "host:port"
otherwise, the port rendered in decimal; and `createListener` leaves the
registry unchanged (no creator call, no map entry) for every descriptor whose
bind address ends in a port "0" or in an empty port, whatever the environment
and the descriptor's type. -/
theorem genAddr_cases_and_zero_port_disabled (host : Str) (port : Int) (env : Env)
    (k : Inbound) (s : Registry) :
    genAddr host port false = "127.0.0.1:".toList ++ formatInt port ∧
    genAddr "*".toList port true = ":".toList ++ formatInt port ∧
    (host ≠ "*".toList → genAddr host port true = host ++ ":".toList ++ formatInt port) ∧
    ((∃ h, k.BindAddress = h ++ ":0".toList ∨ k.BindAddress = h ++ ":".toList ∨
        SplitHostPort k.BindAddress = some (h, "0".toList) ∨
        SplitHostPort k.BindAddress = some (h, [])) →
      createListener env k s = s) := by
  refine ⟨rfl, rfl, ?_, ?_⟩
  · intro hne
    unfold genAddr
    rw [if_pos rfl, if_neg hne]
    simp
  · rintro ⟨h, hk | hk | hk | hk⟩
    · apply createListener_of_portIsZero
      rw [hk]
      exact portIsZero_of_port h "0".toList (by decide) (Or.inl rfl)
    · apply createListener_of_portIsZero
      rw [hk]
      exact portIsZero_of_port h [] (by decide) (Or.inr rfl)
    · apply createListener_of_portIsZero
      unfold portIsZero
      rw [hk]
      rfl
    · apply createListener_of_portIsZero
      unfold portIsZero
      rw [hk]
      rfl

/-- Instance of the C9 statement: host 192.168.1.1 with port 7890, and a SOCKS
inbound bound to 127.0.0.1:0. -/
theorem genAddr_cases_and_zero_port_disabled_witness :
    genAddr "192.168.1.1".toList 7890 true = "192.168.1.1:7890".toList ∧
    createListener Env.ok
      { Typ := .Socks, BindAddress := "127.0.0.1:0".toList, IsFromPortCfg := false }
      Registry.init = Registry.init :=
  have h := genAddr_cases_and_zero_port_disabled "192.168.1.1".toList 7890 Env.ok
    { Typ := .Socks, BindAddress := "127.0.0.1:0".toList, IsFromPortCfg := false } Registry.init
  ⟨(h.2.2.1 (by decide)).trans (by decide), h.2.2.2 ⟨"127.0.0.1".toList, Or.inl (by decide)⟩⟩

/-! ## C8: the ports configuration -/

theorem mem_addPortInbound (b : Str) (al : Bool) (l : List Inbound) (t : InboundType) (p : Int)
    (x : Inbound) :
    x ∈ addPortInbound b al l t p ↔
      x ∈ l ∨ (p ≠ 0 ∧ x = { Typ := t, BindAddress := genAddr b p al, IsFromPortCfg := true }) := by
  unfold addPortInbound
  split_ifs with h
  · simp [h]
  · simp [h]

theorem mem_portsInbounds (env : Env) (ports : Ports) (s : Registry) (x : Inbound) :
    x ∈ portsInbounds env ports s ↔
      x ∈ GetInbounds env s ∨
        ∃ t ∈ portTypes, portOf ports t ≠ 0 ∧ x = portInbound s t (portOf ports t) := by
  unfold portsInbounds
  simp only [mem_addPortInbound, portTypes, portInbound, List.mem_cons, List.mem_singleton,
    List.not_mem_nil, or_false, exists_eq_or_imp, exists_eq_left, portOf]
  tauto

theorem portTypes_supported (t : InboundType) (ht : t ∈ portTypes) : supported t = true := by
  simp only [portTypes, List.mem_cons, List.mem_singleton, List.not_mem_nil, or_false] at ht
  rcases ht with rfl | rfl | rfl | rfl | rfl <;> rfl

/-- The port-config-derived live keys after `ReCreatePortsListeners`. -/
theorem mem_portCfgKeys_ReCreatePortsListeners (env : Env) (henv : env.allSucceed) (hord : env.orderOk)
    (ports : Ports) (s : Registry) (hb : bindOk s ports) (x : Inbound) :
    x ∈ portCfgKeys env (ReCreatePortsListeners env ports s) ↔
      ∃ t ∈ portTypes, portOf ports t ≠ 0 ∧ x = portInbound s t (portOf ports t) := by
  unfold portCfgKeys ReCreatePortsListeners
  rw [List.mem_filter, reCreateListeners_mem_getInbounds env henv hord, mem_portsInbounds env]
  unfold GetInbounds
  simp only [List.mem_filter]
  constructor
  · rintro ⟨h, hcfg⟩
    rcases h with ⟨-, h | h⟩ | ⟨h | h, -, -⟩
    · simp [hcfg] at h
    · exact h
    · simp [hcfg] at h
    · exact h
  · rintro ⟨t, ht, hnz, rfl⟩
    refine ⟨Or.inr ⟨Or.inr ⟨t, ht, hnz, rfl⟩, hb t ht hnz, portTypes_supported t ht⟩, rfl⟩

theorem portOf_fillPort (a : Inbound) (p : Ports) (t : InboundType) (ht : t ∈ portTypes) :
    portOf (fillPort a p) t =
      if a.IsFromPortCfg = true ∧ a.Typ = t then getPort a.BindAddress else portOf p t := by
  obtain ⟨ty, addr, f⟩ := a
  simp only [portTypes, List.mem_cons, List.mem_singleton, List.not_mem_nil, or_false] at ht
  rcases ht with rfl | rfl | rfl | rfl | rfl <;> cases ty <;> cases f <;>
    simp [fillPort, portOf]

theorem portOf_fillPort_fold (ports : Ports) (l : List Inbound)
    (hl : ∀ i ∈ l, i.IsFromPortCfg = true → getPort i.BindAddress = portOf ports i.Typ)
    (p0 : Ports) (t : InboundType) (ht : t ∈ portTypes) :
    portOf (l.foldl (fun p i => fillPort i p) p0) t =
      if ∃ i ∈ l, i.IsFromPortCfg = true ∧ i.Typ = t then portOf ports t else portOf p0 t := by
  induction l generalizing p0 with
  | nil => simp
  | cons a rest ih =>
    simp only [List.foldl_cons]
    rw [ih (fun i hi => hl i (List.mem_cons_of_mem _ hi)), portOf_fillPort a p0 t ht]
    by_cases hrest : ∃ i ∈ rest, i.IsFromPortCfg = true ∧ i.Typ = t
    · have : ∃ i ∈ a :: rest, i.IsFromPortCfg = true ∧ i.Typ = t := by
        obtain ⟨i, hi, h⟩ := hrest
        exact ⟨i, List.mem_cons_of_mem _ hi, h⟩
      rw [if_pos hrest, if_pos this]
    · rw [if_neg hrest]
      by_cases ha : a.IsFromPortCfg = true ∧ a.Typ = t
      · have : ∃ i ∈ a :: rest, i.IsFromPortCfg = true ∧ i.Typ = t :=
          ⟨a, List.mem_cons_self _ _, ha⟩
        rw [if_pos ha, if_pos this, hl a (List.mem_cons_self _ _) ha.1, ha.2]
      · have : ¬ ∃ i ∈ a :: rest, i.IsFromPortCfg = true ∧ i.Typ = t := by
          rintro ⟨i, hi, h⟩
          rcases List.mem_cons.mp hi with rfl | hi
          · exact ha h
          · exact hrest ⟨i, hi, h⟩
        rw [if_neg ha, if_neg this]

theorem Ports_ext (p q : Ports) (h : ∀ t ∈ portTypes, portOf p t = portOf q t) : p = q := by
  obtain ⟨a1, a2, a3, a4, a5⟩ := p
  obtain ⟨b1, b2, b3, b4, b5⟩ := q
  have h1 := h .HTTP (by decide)
  have h2 := h .Socks (by decide)
  have h3 := h .Redir (by decide)
  have h4 := h .Tproxy (by decide)
  have h5 := h .Mixed (by decide)
  simp only [portOf] at h1 h2 h3 h4 h5
  subst h1 h2 h3 h4 h5
  rfl

theorem indexByte_isSome_eq_false (s : Str) (c : Char) (h : c ∉ s) :
    (indexByte s c).isSome = false := by
  cases hh : (indexByte s c).isSome
  · rfl
  · exact absurd ((indexByte_isSome_iff s c).mp hh) h

/-- A host without colon or bracket, followed by a colon and a port without
colon or bracket, splits into that host and that port. -/
theorem SplitHostPort_simple (pre q : Str)
    (h1 : ':' ∉ pre) (h2 : '[' ∉ pre) (h3 : ']' ∉ pre)
    (h5 : '[' ∉ q) (h6 : ']' ∉ q) (h4 : ':' ∉ q) :
    SplitHostPort (pre ++ ':' :: q) = some (pre, q) := by
  have hlb : '[' ∉ pre ++ ':' :: q := by
    simp only [List.mem_append, List.mem_cons, not_or]
    exact ⟨h2, by decide, h5⟩
  have hrb : ']' ∉ pre ++ ':' :: q := by
    simp only [List.mem_append, List.mem_cons, not_or]
    exact ⟨h3, by decide, h6⟩
  unfold SplitHostPort
  rw [lastIndexByte_append_cons pre q ':' h4]
  simp only
  split
  · rename_i r heq
    exact absurd (by rw [heq]; exact List.mem_cons_self _ _) hlb
  · have ht : (pre ++ ':' :: q).take pre.length = pre := by simp
    have hd : (pre ++ ':' :: q).drop (pre.length + 1) = q := by simp
    rw [ht, hd, indexByte_isSome_eq_false _ _ h1, indexByte_isSome_eq_false _ _ hlb,
      indexByte_isSome_eq_false _ _ hrb]
    simp

theorem formatInt_chars (i : Int) (c : Char) (hc : c ∈ formatInt i) :
    c = '-' ∨ (48 ≤ c.toNat ∧ c.toNat ≤ 57) := by
  unfold formatInt at hc
  split_ifs at hc
  · rcases List.mem_cons.mp hc with h | h
    · exact Or.inl h
    · exact Or.inr (formatNat_chars _ _ h)
  · exact Or.inr (formatNat_chars _ _ hc)

theorem formatInt_ne_zero (i : Int) (hi : i ≠ 0) :
    formatInt i ≠ "0".toList ∧ formatInt i ≠ [] := by
  unfold formatInt
  split_ifs with hneg
  · constructor
    · intro h
      have := (List.cons.inj h).1
      revert this
      decide
    · simp
  · refine ⟨fun h => ?_, formatNat_ne_nil _⟩
    have hp := parseDigits_formatNat i.natAbs
    rw [h] at hp
    have h0 : parseDigits "0".toList 0 = some 0 := by decide
    rw [h0] at hp
    have : i.natAbs = 0 := (Option.some.inj hp).symm
    omega

theorem portIsZero_genAddr_simple (pre : Str) (port : Int) (hport : port ≠ 0)
    (h1 : ':' ∉ pre) (h2 : '[' ∉ pre) (h3 : ']' ∉ pre) :
    portIsZero (pre ++ ':' :: formatInt port) = false := by
  have hc : ∀ c, c = ':' ∨ c = '[' ∨ c = ']' → c ∉ formatInt port := by
    intro c hc hmem
    rcases formatInt_chars port c hmem with h | h
    · subst h
      revert hc
      decide
    · rcases hc with rfl | rfl | rfl <;> exact absurd h (by decide)
  unfold portIsZero
  rw [SplitHostPort_simple pre _ h1 h2 h3 (hc _ (Or.inr (Or.inl rfl)))
    (hc _ (Or.inr (Or.inr rfl))) (hc _ (Or.inl rfl))]
  obtain ⟨a, b⟩ := formatInt_ne_zero port hport
  have a2 : ¬ formatInt port = ['0'] := a
  simp [a2, b]

/-- The generated addresses are well formed whenever LAN access is off or the
bind address is "*". -/
theorem bindOk_of_loopback_or_star (s : Registry) (ports : Ports)
    (h : s.allowLan = false ∨ s.bindAddress = "*".toList) : bindOk s ports := by
  intro t _ hnz
  unfold genAddr
  rcases h with h | h
  · rw [h]
    exact portIsZero_genAddr_simple "127.0.0.1".toList _ hnz (by decide) (by decide) (by decide)
  · rw [h]
    cases s.allowLan
    · exact portIsZero_genAddr_simple "127.0.0.1".toList _ hnz (by decide) (by decide) (by decide)
    · exact portIsZero_genAddr_simple [] _ hnz (by decide) (by decide) (by decide)

/-- C8 (claim as stated fails): with LAN access allowed and the bind address
"::1", `ReCreatePortsListeners` with `port: 8080` generates the address
"::1:8080", which `portIsZero` rejects as malformed; no listener is opened
although one field is non-zero, and `GetPorts` does not return the ports. -/
theorem ReCreatePortsListeners_unbracketed_v6 :
    nonZeroFields samplePorts1 = 1 ∧
    portCfgKeys Env.ok (ReCreatePortsListeners Env.ok samplePorts1 sampleV6State) = [] ∧
    GetPorts Env.ok (ReCreatePortsListeners Env.ok samplePorts1 sampleV6State) ≠ samplePorts1 := by
  decide

/-- C8 (amended): for every Ports value (fields being Go ints), every registry
state and every setting of allowLan and bindAddress under which `genAddr`
yields a well-formed host:port for each non-zero field, all listener creations
succeeding, after `ReCreatePortsListeners ports` the port-config-derived live
keys are exactly the descriptors (type of the field, `genAddr bindAddress port
allowLan`, from-port-config) of the non-zero fields; their number is the
number of non-zero fields; and `GetPorts` returns ports. -/
theorem ReCreatePortsListeners_port_keys (env : Env) (henv : env.allSucceed) (hord : env.orderOk) (ports : Ports)
    (s : Registry) (hr : ports.inRange) (hb : bindOk s ports) :
    (∀ x, x ∈ portCfgKeys env (ReCreatePortsListeners env ports s) ↔
      ∃ t ∈ portTypes, portOf ports t ≠ 0 ∧
        x = { Typ := t, BindAddress := genAddr s.bindAddress (portOf ports t) s.allowLan,
              IsFromPortCfg := true }) ∧
    (portCfgKeys env (ReCreatePortsListeners env ports s)).toFinset.card = nonZeroFields ports ∧
    GetPorts env (ReCreatePortsListeners env ports s) = ports := by
  have hmem := mem_portCfgKeys_ReCreatePortsListeners env henv hord ports s hb
  refine ⟨hmem, ?_, ?_⟩
  · have hset : (portCfgKeys env (ReCreatePortsListeners env ports s)).toFinset =
        ((portTypes.filter (fun t => decide (portOf ports t ≠ 0))).map
          (fun t => portInbound s t (portOf ports t))).toFinset := by
      ext x
      simp only [List.mem_toFinset, hmem, List.mem_map, List.mem_filter, decide_eq_true_eq]
      constructor
      · rintro ⟨t, ht, hnz, rfl⟩
        exact ⟨t, ⟨ht, hnz⟩, rfl⟩
      · rintro ⟨t, ⟨ht, hnz⟩, rfl⟩
        exact ⟨t, ht, hnz, rfl⟩
    rw [hset, List.toFinset_card_of_nodup, List.length_map]
    · rfl
    · apply List.Nodup.map_on
      · intro a _ b _ hab
        unfold portInbound at hab
        exact (Inbound.mk.injEq _ _ _ _ _ _ ▸ hab).1
      · exact List.Nodup.filter _ (by decide)
  · apply Ports_ext
    intro t ht
    unfold GetPorts
    have hl : ∀ i ∈ getInbounds env (ReCreatePortsListeners env ports s), i.IsFromPortCfg = true →
        getPort i.BindAddress = portOf ports i.Typ := by
      intro i hi hcfg
      have : i ∈ portCfgKeys env (ReCreatePortsListeners env ports s) :=
        List.mem_filter.mpr ⟨hi, hcfg⟩
      obtain ⟨t2, ht2, hnz, rfl⟩ := (hmem i).mp this
      exact getPort_genAddr _ _ _ (hr t2 ht2).1 (hr t2 ht2).2 (hb t2 ht2 hnz)
    rw [portOf_fillPort_fold ports _ hl _ t ht]
    by_cases hnz : portOf ports t = 0
    · split_ifs
      · rfl
      · rw [hnz]
        simp only [portTypes, List.mem_cons, List.mem_singleton, List.not_mem_nil, or_false] at ht
        rcases ht with rfl | rfl | rfl | rfl | rfl <;> rfl
    · have hlive : portInbound s t (portOf ports t) ∈
          portCfgKeys env (ReCreatePortsListeners env ports s) :=
        (hmem _).mpr ⟨t, ht, hnz, rfl⟩
      have : ∃ i ∈ getInbounds env (ReCreatePortsListeners env ports s),
          i.IsFromPortCfg = true ∧ i.Typ = t :=
        ⟨_, (List.mem_filter.mp hlive).1, rfl, rfl⟩
      rw [if_pos this]

/-- Instance of the amended C8 statement: `port: 8080, mixed-port: 7890` on a
fresh process gives exactly two port-derived listeners. -/
theorem ReCreatePortsListeners_port_keys_witness :
    samplePorts2.inRange ∧ bindOk Registry.init samplePorts2 ∧
    (portCfgKeys Env.ok
      (ReCreatePortsListeners Env.ok samplePorts2 Registry.init)).toFinset.card = 2 ∧
    GetPorts Env.ok (ReCreatePortsListeners Env.ok samplePorts2 Registry.init) = samplePorts2 :=
  have hr : samplePorts2.inRange := by unfold Ports.inRange isInt64; decide
  have hb : bindOk Registry.init samplePorts2 := by unfold bindOk; decide
  have h := ReCreatePortsListeners_port_keys Env.ok (fun _ _ => rfl)
    (fun l => List.Perm.refl l) samplePorts2 Registry.init hr hb
  ⟨hr, hb, h.2.1.trans (by decide), h.2.2⟩

/-! ## C1: the diff of two inbound lists -/

/-- C1 (defect in the code): with old = [a] and new = [a, a] the function
`getNeedCloseAndCreateInbound` returns needCreate = [a], although a occurs in
old: the first occurrence of a removes it from needCloseMap, so the second one
is taken for a descriptor that has to be created.  The create list is therefore
not "the descriptors that occur in new and not in old". -/
theorem getNeedCloseAndCreateInbound_repeated_new (order : List Inbound → List Inbound) :
    (getNeedCloseAndCreateInbound order [sampleHTTP] [sampleHTTP, sampleHTTP]).2 = [sampleHTTP] ∧
    getNeedCloseAndCreateInbound Env.ok.order [sampleHTTP] [sampleHTTP, sampleHTTP] =
      ([], [sampleHTTP]) ∧
    ¬ (∀ x, x ∈ (getNeedCloseAndCreateInbound order [sampleHTTP] [sampleHTTP, sampleHTTP]).2 ↔
        (x ∈ [sampleHTTP, sampleHTTP] ∧ x ∉ [sampleHTTP])) := by
  have h : (getNeedCloseAndCreateInbound order [sampleHTTP] [sampleHTTP, sampleHTTP]).2 =
      [sampleHTTP] := by
    have hr : ([sampleHTTP, sampleHTTP].foldl needStep
        ([sampleHTTP].foldl (fun m i => mapSet m i true) [], [])).2 = [sampleHTTP] := by decide
    exact hr
  refine ⟨h, by decide, fun hall => ?_⟩
  have := (hall sampleHTTP).mp (by rw [h]; simp)
  simp at this

/-! ## C2: live keys after `ReCreateListeners` -/

theorem portsNonZero_init : portsNonZero Registry.init := by
  intro k hk
  simp [Registry.init, mapKeys] at hk

theorem portsNonZero_iff (env : Env) (hord : env.orderOk) (s : Registry) :
    portsNonZero s ↔ ∀ k ∈ getInbounds env s, getPort k.BindAddress ≠ 0 := by
  unfold portsNonZero
  constructor
  · intro h k hk
    exact h k (List.mem_append.mpr ((mem_getInbounds env hord s k).mp hk))
  · intro h k hk
    exact h k ((mem_getInbounds env hord s k).mpr (List.mem_append.mp hk))

theorem formatInt_natCast (n : Nat) : formatInt (n : Int) = formatNat n := by
  unfold formatInt
  have h : ¬ ((n : Int) < 0) := by omega
  rw [if_neg h]
  simp

/-- For a port text that is empty or a plain decimal number, the string test
of `portIsZero` and the port number read by `getPort` agree. -/
theorem portIsZero_false_iff_getPort (addr : Str) (h : canonicalPortText addr) :
    portIsZero addr = false ↔ getPort addr ≠ 0 := by
  unfold portIsZero getPort
  cases hs : SplitHostPort addr with
  | none => simp
  | some r =>
    obtain ⟨host, p⟩ := r
    rcases h host p hs with rfl | ⟨n, rfl, hn⟩
    · have ha : Atoi [] = none := by decide
      simp [ha]
    · have hat : Atoi (formatNat n) = some (n : Int) := by
        rw [← formatInt_natCast]
        have h0 : -(2 : Int) ^ 63 ≤ (n : Int) := by
          have : (0 : Int) ≤ n := by omega
          norm_num
          omega
        exact Atoi_formatInt (n : Int) h0 hn
      simp only [hat]
      have hne := formatNat_ne_nil n
      by_cases hn0 : n = 0
      · subst hn0
        have h0 : formatNat 0 = "0".toList := by decide
        simp [h0]
      · have hz := (formatInt_ne_zero (n : Int) (by omega)).1
        rw [formatInt_natCast] at hz
        have hz2 : ¬ formatNat n = ['0'] := hz
        simp [hz2, hne]
        omega

/-- The invariant is kept by a reconfigure whose new list has plain decimal
port texts. -/
theorem portsNonZero_reCreateListeners (env : Env) (henv : env.allSucceed)
    (hord : env.orderOk) (new : List Inbound) (s : Registry)
    (hcanon : ∀ i ∈ new, canonicalPortText i.BindAddress) (h : portsNonZero s) :
    portsNonZero (reCreateListeners env new s) := by
  rw [portsNonZero_iff env hord] at h ⊢
  intro k hk
  rcases (reCreateListeners_mem_getInbounds env henv hord new s k).mp hk with
    ⟨h1, -⟩ | ⟨hn, h2, -⟩
  · exact h k h1
  · exact (portIsZero_false_iff_getPort _ (hcanon k hn)).mp h2


/-- C2 (claim as stated fails): after `port: 7890` was configured through
`ReCreatePortsListeners`, `ReCreateListeners` with the empty inbound list leaves
the port-derived HTTP listener live, so the live keys are not the descriptors
of the new list with a non-zero port. -/
theorem ReCreateListeners_keeps_port_listeners :
    ¬ (∀ i, i ∈ getInbounds Env.ok (ReCreateListeners Env.ok [] samplePortsState) ↔
        (i ∈ ([] : List Inbound) ∧ getPort i.BindAddress ≠ 0)) := by
  intro hall
  have hmem : samplePortHTTP ∈
      getInbounds Env.ok (ReCreateListeners Env.ok [] samplePortsState) := by
    decide
  have := (hall samplePortHTTP).mp hmem
  simp at this

/-- C2 (amended): for every registry state in which every live key has a
non-zero port number and every list new of inbound descriptors of supported
types whose port texts are plain decimal numbers or empty, all listener
creations succeeding, the live keys after `ReCreateListeners new` are exactly
the descriptors of new whose bind address has a port number that is not 0,
together with the port-config-derived descriptors that were live before. -/
theorem ReCreateListeners_live_keys (env : Env) (henv : env.allSucceed)
    (hord : env.orderOk) (s : Registry) (new : List Inbound)
    (hsup : ∀ i ∈ new, supported i.Typ = true)
    (hcanon : ∀ i ∈ new, canonicalPortText i.BindAddress)
    (hwf : portsNonZero s) (i : Inbound) :
    i ∈ getInbounds env (ReCreateListeners env new s) ↔
      (i ∈ new ∧ getPort i.BindAddress ≠ 0) ∨
        (i ∈ getInbounds env s ∧ i.IsFromPortCfg = true) := by
  unfold ReCreateListeners
  rw [reCreateListeners_mem_getInbounds env henv hord]
  simp only [List.mem_append, List.mem_filter]
  constructor
  · rintro (⟨hl, hn | hf⟩ | ⟨hn | hf, hz, -⟩)
    · exact Or.inl ⟨hn, (portsNonZero_iff env hord s).mp hwf i hl⟩
    · exact Or.inr hf
    · exact Or.inl ⟨hn, (portIsZero_false_iff_getPort _ (hcanon i hn)).mp hz⟩
    · exact Or.inr hf
  · rintro (⟨hn, hz⟩ | hf)
    · exact Or.inr ⟨Or.inl hn, (portIsZero_false_iff_getPort _ (hcanon i hn)).mpr hz,
        hsup i hn⟩
    · exact Or.inl ⟨hf.1, Or.inr hf⟩

/-- Instance of the amended C2 statement: the state with a port-derived HTTP
listener, reconfigured with one free-form HTTP inbound. -/
theorem ReCreateListeners_live_keys_witness :
    portsNonZero samplePortsState ∧
    (∀ i ∈ [sampleHTTP], canonicalPortText i.BindAddress) ∧
    (samplePortHTTP ∈
        getInbounds Env.ok (ReCreateListeners Env.ok [sampleHTTP] samplePortsState) ↔
      (samplePortHTTP ∈ [sampleHTTP] ∧ getPort samplePortHTTP.BindAddress ≠ 0) ∨
        (samplePortHTTP ∈ getInbounds Env.ok samplePortsState ∧
          samplePortHTTP.IsFromPortCfg = true)) :=
  have h : portsNonZero samplePortsState := by unfold portsNonZero; decide
  have hc : ∀ i ∈ [sampleHTTP], canonicalPortText i.BindAddress := by
    intro i hi
    rw [List.mem_singleton.mp hi]
    intro host p hs
    have hsplit : SplitHostPort sampleHTTP.BindAddress =
        some ("127.0.0.1".toList, "7890".toList) := by decide
    rw [hsplit] at hs
    cases hs
    exact Or.inr ⟨7890, by decide, by norm_num⟩
  ⟨h, hc, ReCreateListeners_live_keys Env.ok (fun _ _ => rfl) (fun l => List.Perm.refl l)
    samplePortsState [sampleHTTP] (by decide) hc h samplePortHTTP⟩

/-- A port written "00" is not covered by the amended C2 statement: its port
number is 0, yet `portIsZero` compares the text with "0" and the listener is
created. -/
theorem createListener_port_double_zero :
    getPort sampleDoubleZero.BindAddress = 0 ∧
    portIsZero sampleDoubleZero.BindAddress = false ∧
    sampleDoubleZero ∈
      getInbounds Env.ok (ReCreateListeners Env.ok [sampleDoubleZero] Registry.init) ∧
    ¬ canonicalPortText sampleDoubleZero.BindAddress := by
  refine ⟨by decide, by decide, by decide, fun h => ?_⟩
  have hsplit : SplitHostPort sampleDoubleZero.BindAddress =
      some ("127.0.0.1".toList, "00".toList) := by decide
  rcases h _ _ hsplit with h0 | ⟨n, hn, -⟩
  · exact absurd h0 (by decide)
  · have hp := parseDigits_formatNat n
    rw [← hn] at hp
    have h00 : parseDigits "00".toList 0 = some 0 := by decide
    rw [h00] at hp
    have hn0 : n = 0 := (Option.some.inj hp).symm
    rw [hn0] at hn
    exact absurd hn (by decide)

/-! ## C3: reconfiguring twice -/

/-- C3 (defect in the code): on a fresh registry, `reCreateListeners` with the
list [a, a] run twice is not a no-op the second time.  The second run calls the
HTTP creator for a once more (one more entry in the trace), and the listener
stored for a in `tcpListeners` is replaced by the new handle. -/
theorem reCreateListeners_twice_repeated_new :
    (reCreateListeners Env.ok [sampleHTTP, sampleHTTP]
        (reCreateListeners Env.ok [sampleHTTP, sampleHTTP] Registry.init)).log =
      (reCreateListeners Env.ok [sampleHTTP, sampleHTTP] Registry.init).log ++
        [Event.create .httpNew sampleHTTP.BindAddress] ∧
    (reCreateListeners Env.ok [sampleHTTP, sampleHTTP]
        (reCreateListeners Env.ok [sampleHTTP, sampleHTTP] Registry.init)).tcpListeners ≠
      (reCreateListeners Env.ok [sampleHTTP, sampleHTTP] Registry.init).tcpListeners := by
  decide

/-! ## C4: the byte counters of a TCP tracker -/

theorem wrapInt64_of_range (x : Int) (h0 : 0 ≤ x) (h1 : x < 9223372036854775808) :
    wrapInt64 x = x := by
  unfold wrapInt64
  omega

theorem writeSum_nonneg (calls : List Call) (hn : ∀ c ∈ calls, 0 ≤ c.result.n) :
    0 ≤ writeSum calls := by
  induction calls with
  | nil => simp [writeSum]
  | cons c rest ih =>
    have hrest := ih (fun c hc => hn c (List.mem_cons_of_mem _ hc))
    have hc := hn c (List.mem_cons_self _ _)
    cases c with
    | read r => simpa [writeSum] using hrest
    | write r =>
      simp only [Call.result] at hc
      simp only [writeSum]
      omega

theorem readSum_nonneg (calls : List Call) (hn : ∀ c ∈ calls, 0 ≤ c.result.n) :
    0 ≤ readSum calls := by
  induction calls with
  | nil => simp [readSum]
  | cons c rest ih =>
    have hrest := ih (fun c hc => hn c (List.mem_cons_of_mem _ hc))
    have hc := hn c (List.mem_cons_self _ _)
    cases c with
    | write r => simpa [readSum] using hrest
    | read r =>
      simp only [Call.result] at hc
      simp only [readSum]
      omega

theorem writeSum_append (a b : List Call) : writeSum (a ++ b) = writeSum a + writeSum b := by
  induction a with
  | nil => simp [writeSum]
  | cons c rest ih =>
    cases c with
    | read r => simpa [writeSum] using ih
    | write r =>
      show writeSum (Call.write r :: (rest ++ b)) = writeSum (Call.write r :: rest) + writeSum b
      simp only [writeSum]
      rw [ih]
      omega

theorem readSum_append (a b : List Call) : readSum (a ++ b) = readSum a + readSum b := by
  induction a with
  | nil => simp [readSum]
  | cons c rest ih =>
    cases c with
    | write r => simpa [readSum] using ih
    | read r =>
      show readSum (Call.read r :: (rest ++ b)) = readSum (Call.read r :: rest) + readSum b
      simp only [readSum]
      rw [ih]
      omega

/-- The counters after a run that starts from any tracker, as long as they
stay below 2^63. -/
theorem run_totals (calls : List Call) (tt : TcpTracker)
    (hn : ∀ c ∈ calls, 0 ≤ c.result.n)
    (hu0 : 0 ≤ tt.UploadTotal) (hd0 : 0 ≤ tt.DownloadTotal)
    (hu : tt.UploadTotal + writeSum calls < 9223372036854775808)
    (hd : tt.DownloadTotal + readSum calls < 9223372036854775808) :
    (tt.run calls).2.UploadTotal = tt.UploadTotal + writeSum calls ∧
    (tt.run calls).2.DownloadTotal = tt.DownloadTotal + readSum calls ∧
    (tt.run calls).1 = calls.map Call.result := by
  induction calls generalizing tt with
  | nil => simp [TcpTracker.run, writeSum, readSum]
  | cons c rest ih =>
    have hrest : ∀ c ∈ rest, 0 ≤ c.result.n := fun c hc => hn c (List.mem_cons_of_mem _ hc)
    have hc := hn c (List.mem_cons_self _ _)
    have hw := writeSum_nonneg rest hrest
    have hr := readSum_nonneg rest hrest
    cases c with
    | read r =>
      simp only [Call.result] at hc
      simp only [writeSum, readSum] at hu hd
      have hstep : wrapInt64 (tt.DownloadTotal + r.n) = tt.DownloadTotal + r.n :=
        wrapInt64_of_range _ (by omega) (by omega)
      obtain ⟨h1, h2, h3⟩ := ih (tt.Read r).2 hrest
        (by simpa [TcpTracker.Read] using hu0)
        (by simp only [TcpTracker.Read, hstep]; omega)
        (by simpa [TcpTracker.Read] using hu)
        (by simp only [TcpTracker.Read, hstep]; omega)
      simp only [TcpTracker.run, writeSum, readSum, List.map_cons, Call.result]
      refine ⟨?_, ?_, ?_⟩
      · rw [h1]
        simp [TcpTracker.Read]
      · rw [h2]
        simp only [TcpTracker.Read, hstep]
        omega
      · rw [h3]
        simp [TcpTracker.Read]
    | write r =>
      simp only [Call.result] at hc
      simp only [writeSum, readSum] at hu hd
      have hstep : wrapInt64 (tt.UploadTotal + r.n) = tt.UploadTotal + r.n :=
        wrapInt64_of_range _ (by omega) (by omega)
      obtain ⟨h1, h2, h3⟩ := ih (tt.Write r).2 hrest
        (by simp only [TcpTracker.Write, hstep]; omega)
        (by simpa [TcpTracker.Write] using hd0)
        (by simp only [TcpTracker.Write, hstep]; omega)
        (by simpa [TcpTracker.Write] using hd)
      simp only [TcpTracker.run, writeSum, readSum, List.map_cons, Call.result]
      refine ⟨?_, ?_, ?_⟩
      · rw [h1]
        simp only [TcpTracker.Write, hstep]
        omega
      · rw [h2]
        simp [TcpTracker.Write]
      · rw [h3]
        simp [TcpTracker.Write]

theorem NewTCPTracker_totals (manager : Manager) (rule : Option (Str × Str)) :
    (NewTCPTracker manager rule).UploadTotal = 0 ∧
    (NewTCPTracker manager rule).DownloadTotal = 0 := by
  unfold NewTCPTracker
  cases rule with
  | none => exact ⟨rfl, rfl⟩
  | some r => exact ⟨rfl, rfl⟩

/-- C4 (claim as stated fails): the totals are 64-bit counters.  On a fresh
tracker two writes for which the underlying connection reports 2^62 bytes each
leave UploadTotal at -2^63, not at the sum 2^63 of the reported counts, and
the total has decreased from 2^62. -/
theorem TcpTracker_upload_total_wraps :
    (∀ c ∈ sampleHugeWrites, 0 ≤ c.result.n) ∧
    writeSum sampleHugeWrites = 9223372036854775808 ∧
    ((NewTCPTracker { uploaded := 0, downloaded := 0 } none).run sampleHugeWrites).2.UploadTotal
      = -9223372036854775808 ∧
    ((NewTCPTracker { uploaded := 0, downloaded := 0 } none).run sampleHugeWrites).2.UploadTotal
      < ((NewTCPTracker { uploaded := 0, downloaded := 0 } none).run
          (sampleHugeWrites.take 1)).2.UploadTotal := by
  decide

/-- C4 (amended): for every freshly constructed TcpTracker and every finite
sequence of Read and Write calls on it, whatever byte counts n >= 0 and errors
the underlying connection returns, as long as the sum of the write counts and
the sum of the read counts each stay below 2^63 (the range of the 64-bit
counters): afterwards UploadTotal is the sum of the counts returned by the
underlying Writes and DownloadTotal the sum of those returned by the
underlying Reads (counts reported with an error included, zero counts adding
nothing), every tracker call returns the (n, err) of the underlying call, and
along the sequence neither total ever decreases. -/
theorem TcpTracker_totals_are_sums (manager : Manager) (rule : Option (Str × Str))
    (calls : List Call) (hn : ∀ c ∈ calls, 0 ≤ c.result.n)
    (hu : writeSum calls < 9223372036854775808)
    (hd : readSum calls < 9223372036854775808) :
    ((NewTCPTracker manager rule).run calls).2.UploadTotal = writeSum calls ∧
    ((NewTCPTracker manager rule).run calls).2.DownloadTotal = readSum calls ∧
    ((NewTCPTracker manager rule).run calls).1 = calls.map Call.result ∧
    (∀ pre post, calls = pre ++ post →
      ((NewTCPTracker manager rule).run pre).2.UploadTotal ≤
        ((NewTCPTracker manager rule).run calls).2.UploadTotal ∧
      ((NewTCPTracker manager rule).run pre).2.DownloadTotal ≤
        ((NewTCPTracker manager rule).run calls).2.DownloadTotal) := by
  obtain ⟨z1, z2⟩ := NewTCPTracker_totals manager rule
  have key : ∀ l : List Call, (∀ c ∈ l, 0 ≤ c.result.n) →
      writeSum l < 9223372036854775808 → readSum l < 9223372036854775808 →
      ((NewTCPTracker manager rule).run l).2.UploadTotal = writeSum l ∧
      ((NewTCPTracker manager rule).run l).2.DownloadTotal = readSum l ∧
      ((NewTCPTracker manager rule).run l).1 = l.map Call.result := by
    intro l hl h1 h2
    obtain ⟨a, b, c⟩ := run_totals l (NewTCPTracker manager rule) hl
      (by rw [z1]) (by rw [z2]) (by rw [z1]; omega) (by rw [z2]; omega)
    rw [z1] at a
    rw [z2] at b
    exact ⟨by omega, by omega, c⟩
  obtain ⟨k1, k2, k3⟩ := key calls hn hu hd
  refine ⟨k1, k2, k3, ?_⟩
  intro pre post hsplit
  subst hsplit
  have hpre : ∀ c ∈ pre, 0 ≤ c.result.n := fun c hc => hn c (List.mem_append_left _ hc)
  have hpost : ∀ c ∈ post, 0 ≤ c.result.n := fun c hc => hn c (List.mem_append_right _ hc)
  have w1 := writeSum_nonneg post hpost
  have r1 := readSum_nonneg post hpost
  rw [writeSum_append] at hu
  rw [readSum_append] at hd
  obtain ⟨p1, p2, -⟩ := key pre hpre (by omega) (by omega)
  rw [k1, k2, p1, p2, writeSum_append, readSum_append]
  constructor <;> omega

/-- Instance of the amended C4 statement: write 100 bytes, read 50 bytes, read
7 bytes together with an error, write 0 bytes. -/
theorem TcpTracker_totals_are_sums_witness :
    ((NewTCPTracker { uploaded := 0, downloaded := 0 } none).run sampleCalls).2.UploadTotal = 100 ∧
    ((NewTCPTracker { uploaded := 0, downloaded := 0 } none).run sampleCalls).2.DownloadTotal = 57 :=
  have h := TcpTracker_totals_are_sums { uploaded := 0, downloaded := 0 } none sampleCalls
    (by decide) (by decide) (by decide)
  ⟨h.1.trans (by decide), h.2.1.trans (by decide)⟩

/-! ## C5: the SOCKS address wire format -/

theorem toByte_val (x : Nat) : (toByte x).val = x % 256 := rfl

theorem To4_length (ip ip4 : List Byte) (h : To4 ip = some ip4) : ip4.length = 4 := by
  unfold To4 at h
  split_ifs at h with h1 h2
  · cases h
    exact h1
  · cases h
    simp [h2.1]

theorem To16_length (ip ip16 : List Byte) (h : To16 ip = some ip16) : ip16.length = 16 := by
  unfold To16 at h
  split_ifs at h with h1 h2
  · cases h
    simp [v4Mapped, h1]
  · cases h
    exact h2

theorem port_bytes (p : Nat) (hp : p < 65536) :
    (toByte (p % 65536 / 256 % 256)).val * 256 + (toByte (p % 65536)).val = p := by
  simp only [toByte_val]
  omega

/-- Reading back an address part of known length followed by the two port bytes. -/
theorem drop_addr_port (addr : List Byte) (hi lo : Byte) (n : Nat) (hn : addr.length = n) :
    (addr ++ [hi, lo]).drop n = [hi, lo] ∧ (addr ++ [hi, lo]).take n = addr ∧
    n ≤ (addr ++ [hi, lo]).length := by
  subst hn
  refine ⟨by simp, by simp, by simp⟩

set_option maxRecDepth 100000 in
/-- C5 (claim as stated fails): for a host of 256 bytes the length byte is 0,
not the number of bytes of the host, and the output (260 bytes) does not
parse back; and for an IPv6 address type with a destination IP of 5 bytes,
which is neither an IPv4 nor an IPv6 address, no address byte is written and
the output has 3 bytes, not 19. -/
theorem serializesSocksAddr_long_host_or_odd_ip :
    sampleLongHost.Host.length = 256 ∧
    (serializesSocksAddr AtypDomainName sampleLongHost).get? 1 = some 0 ∧
    (serializesSocksAddr AtypDomainName sampleLongHost).length = 260 ∧
    parseSocksAddr (serializesSocksAddr AtypDomainName sampleLongHost) = none ∧
    To4 sampleOddIP.DstIP = none ∧
    serializesSocksAddr AtypIPv6 sampleOddIP = [4, 0, 80] ∧
    parseSocksAddr (serializesSocksAddr AtypIPv6 sampleOddIP) = none := by
  decide

/-- C5 (amended): for every destination metadata m whose port is a 16-bit
value, `serializesSocksAddr m` is one address-type byte, then the address,
then the port as 2 bytes big-endian, in each of these cases: for a domain
address whose host has at most 255 bytes the address part is one length byte
equal to the number of bytes of the host followed by exactly those bytes
(total 1 + 1 + len + 2); for IPv4 with a destination IP that is an IPv4
address (`To4` not nil) it is the 4 bytes `To4` gives (total 7); for IPv6 with
a destination IP of 16 or of 4 bytes (`To16` not nil) it is the 16 bytes `To16`
gives (total 19).  In each case the reader of the wire format gets back
address type, host or IP bytes, and port. -/
theorem serializesSocksAddr_layout (m : Metadata) (hp : m.DstPort < 65536) :
    (m.Host.length ≤ 255 →
      serializesSocksAddr AtypDomainName m =
        toByte AtypDomainName :: toByte m.Host.length ::
          (m.Host ++ [toByte (m.DstPort / 256), toByte m.DstPort]) ∧
      (toByte m.Host.length).val = m.Host.length ∧
      (serializesSocksAddr AtypDomainName m).length = 1 + 1 + m.Host.length + 2 ∧
      parseSocksAddr (serializesSocksAddr AtypDomainName m) =
        some (AtypDomainName, m.Host, m.DstPort)) ∧
    (∀ ip4, To4 m.DstIP = some ip4 →
      serializesSocksAddr AtypIPv4 m =
        toByte AtypIPv4 :: (ip4 ++ [toByte (m.DstPort / 256), toByte m.DstPort]) ∧
      ip4.length = 4 ∧
      (serializesSocksAddr AtypIPv4 m).length = 7 ∧
      parseSocksAddr (serializesSocksAddr AtypIPv4 m) = some (AtypIPv4, ip4, m.DstPort)) ∧
    (∀ ip16, To16 m.DstIP = some ip16 →
      serializesSocksAddr AtypIPv6 m =
        toByte AtypIPv6 :: (ip16 ++ [toByte (m.DstPort / 256), toByte m.DstPort]) ∧
      ip16.length = 16 ∧
      (serializesSocksAddr AtypIPv6 m).length = 19 ∧
      parseSocksAddr (serializesSocksAddr AtypIPv6 m) = some (AtypIPv6, ip16, m.DstPort)) := by
  have hmod : m.DstPort % 65536 = m.DstPort := Nat.mod_eq_of_lt hp
  have hhi : toByte (m.DstPort / 256 % 256) = toByte (m.DstPort / 256) := by
    apply Fin.ext
    simp only [toByte_val]
    omega
  have hport := port_bytes m.DstPort hp
  rw [hmod] at hport
  have hport2 : (toByte (m.DstPort / 256)).val * 256 + (toByte m.DstPort).val = m.DstPort := by
    rw [← hhi]
    exact hport
  refine ⟨?_, ?_, ?_⟩
  · intro hlen
    have hform : serializesSocksAddr AtypDomainName m =
        toByte AtypDomainName :: toByte m.Host.length ::
          (m.Host ++ [toByte (m.DstPort / 256), toByte m.DstPort]) := by
      unfold serializesSocksAddr
      simp only [if_true, hmod, hhi]
      simp
    have hlb : (toByte m.Host.length).val = m.Host.length := by
      rw [toByte_val]
      omega
    obtain ⟨d1, d2, d3⟩ := drop_addr_port m.Host (toByte (m.DstPort / 256)) (toByte m.DstPort)
      m.Host.length rfl
    refine ⟨hform, hlb, ?_, ?_⟩
    · rw [hform]
      simp
      omega
    · rw [hform]
      unfold parseSocksAddr
      have ht : (toByte AtypDomainName).val = AtypDomainName := rfl
      simp only [ht, if_true, hlb, d1, d2, d3, hport2]
  · intro ip4 h4
    have hl := To4_length _ _ h4
    have hform : serializesSocksAddr AtypIPv4 m =
        toByte AtypIPv4 :: (ip4 ++ [toByte (m.DstPort / 256), toByte m.DstPort]) := by
      unfold serializesSocksAddr
      have hne : ¬ AtypIPv4 = AtypDomainName := by decide
      simp only [hne, if_false, if_true, hmod, hhi, h4, Option.getD_some]
      simp
    obtain ⟨d1, d2, d3⟩ := drop_addr_port ip4 (toByte (m.DstPort / 256)) (toByte m.DstPort) 4 hl
    refine ⟨hform, hl, ?_, ?_⟩
    · rw [hform]
      simp [hl]
    · rw [hform]
      unfold parseSocksAddr
      have ht : (toByte AtypIPv4).val = AtypIPv4 := rfl
      have hne : ¬ AtypIPv4 = AtypDomainName := by decide
      simp only [ht, hne, if_false, if_true, d1, d2, d3, hport2]
  · intro ip16 h16
    have hl := To16_length _ _ h16
    have hform : serializesSocksAddr AtypIPv6 m =
        toByte AtypIPv6 :: (ip16 ++ [toByte (m.DstPort / 256), toByte m.DstPort]) := by
      unfold serializesSocksAddr
      have hne : ¬ AtypIPv6 = AtypDomainName := by decide
      have hne2 : ¬ AtypIPv6 = AtypIPv4 := by decide
      simp only [hne, hne2, if_false, if_true, hmod, hhi, h16, Option.getD_some]
      simp
    obtain ⟨d1, d2, d3⟩ := drop_addr_port ip16 (toByte (m.DstPort / 256)) (toByte m.DstPort) 16 hl
    refine ⟨hform, hl, ?_, ?_⟩
    · rw [hform]
      simp [hl]
    · rw [hform]
      unfold parseSocksAddr
      have ht : (toByte AtypIPv6).val = AtypIPv6 := rfl
      have hne : ¬ AtypIPv6 = AtypDomainName := by decide
      have hne2 : ¬ AtypIPv6 = AtypIPv4 := by decide
      simp only [ht, hne, hne2, if_false, if_true, d1, d2, d3, hport2]

/-- Instance of the amended C5 statement: `example.com:443` and `1.2.3.4:80`. -/
theorem serializesSocksAddr_layout_witness :
    serializesSocksAddr AtypDomainName sampleDomain =
      [3, 11, 101, 120, 97, 109, 112, 108, 101, 46, 99, 111, 109, 1, 187] ∧
    parseSocksAddr (serializesSocksAddr AtypDomainName sampleDomain) =
      some (AtypDomainName, sampleDomain.Host, 443) ∧
    (serializesSocksAddr AtypIPv4 sampleV4).length = 7 :=
  have h := serializesSocksAddr_layout sampleDomain (by decide)
  have h2 := serializesSocksAddr_layout sampleV4 (by decide)
  ⟨(h.1 (by decide)).1.trans (by decide), (h.1 (by decide)).2.2.2,
    (h2.2.1 [1, 2, 3, 4] (by decide)).2.2.1⟩

/-! ## C7: the geo-IP filter -/

set_option maxRecDepth 100000 in
theorem mask_240 : ∀ b : Byte, ((b.val &&& 240) == 16) = decide (16 ≤ b.val ∧ b.val ≤ 31) := by
  decide

set_option maxRecDepth 100000 in
theorem mask_254 : ∀ b : Byte, ((b.val &&& 254) == 252) = decide (b.val = 252 ∨ b.val = 253) := by
  decide

theorem To4_some_not_ULA (ip ip4 : List Byte) (h : To4 ip = some ip4) : ¬ inULA ip := by
  unfold To4 at h
  rintro ⟨hlen, hb⟩
  split_ifs at h with h1 h2
  · omega
  · obtain ⟨-, hpre⟩ := h2
    match ip, hpre with
    | x :: rest, hpre =>
      have hx : x = 0 := by
        simp only [v4Mapped, List.take_succ_cons, List.cons.injEq] at hpre
        exact hpre.1
      subst hx
      simp at hb

/-- Go's `IsPrivate` is membership in the RFC 1918 ranges or in fc00::/7. -/
theorem IsPrivate_iff (ip : List Byte) : IsPrivate ip = true ↔ inRFC1918 ip ∨ inULA ip := by
  unfold IsPrivate
  cases h4 : To4 ip with
  | none =>
    simp only [Bool.and_eq_true, beq_iff_eq]
    have hm := mask_254 (ip.getD 0 0)
    constructor
    · rintro ⟨hl, hb⟩
      right
      refine ⟨hl, ?_⟩
      have : ((ip.getD 0 0).val &&& 254 == 252) = true := by simpa using hb
      rw [hm] at this
      simpa using this
    · rintro (⟨a, b, c, d, h, -⟩ | ⟨hl, hb⟩)
      · rw [h4] at h
        cases h
      · refine ⟨hl, ?_⟩
        have : ((ip.getD 0 0).val &&& 254 == 252) = true := by
          rw [hm]
          simpa using hb
        simpa using this
  | some ip4 =>
    have hl := To4_length ip ip4 h4
    have hnula := To4_some_not_ULA ip ip4 h4
    obtain ⟨a, b, c, d, rfl⟩ : ∃ a b c d, ip4 = [a, b, c, d] := by
      match ip4, hl with
      | [a, b, c, d], _ => exact ⟨a, b, c, d, rfl⟩
    have hm := mask_240 b
    simp only [List.getD_cons_zero, List.getD_cons_succ, Bool.or_eq_true, Bool.and_eq_true,
      beq_iff_eq]
    constructor
    · intro h
      left
      refine ⟨a, b, c, d, h4, ?_⟩
      rcases h with (h | ⟨h1, h2⟩) | ⟨h1, h2⟩
      · exact Or.inl h
      · right
        left
        have : ((b.val &&& 240) == 16) = true := by simpa using h2
        rw [hm] at this
        exact ⟨h1, by simpa using this⟩
      · exact Or.inr (Or.inr ⟨h1, h2⟩)
    · rintro (⟨a2, b2, c2, d2, h, hr⟩ | hu)
      · rw [h4] at h
        simp only [Option.some.injEq, List.cons.injEq, and_true] at h
        obtain ⟨rfl, rfl, rfl, rfl⟩ := h
        rcases hr with h | ⟨h1, h2⟩ | ⟨h1, h2⟩
        · exact Or.inl (Or.inl h)
        · left
          right
          refine ⟨h1, ?_⟩
          have : ((b.val &&& 240) == 16) = true := by
            rw [mask_240]
            simpa using h2
          simpa using this
        · exact Or.inr ⟨h1, h2⟩
      · exact absurd hu hnula

/-- C7 (claim as stated fails): 169.254.1.1 is a link-local address whose
country lookup gives "US"; the filter for "CN" matches it, although the claim
exempts link-local addresses. -/
theorem geoipFilter_matches_link_local :
    inLinkLocal sampleLinkLocal ∧
    ¬ (geoipFilter.Match asciiFold (fun _ => "US".toList) "CN".toList sampleLinkLocal = true ↔
        (EqualFold asciiFold "US".toList "CN".toList = false ∧
          ¬ (inRFC1918 sampleLinkLocal ∨ inULA sampleLinkLocal ∨ inLinkLocal sampleLinkLocal))) := by
  have hll : inLinkLocal sampleLinkLocal := Or.inl ⟨1, 1, by decide⟩
  refine ⟨hll, fun h => ?_⟩
  have hm : geoipFilter.Match asciiFold (fun _ => "US".toList) "CN".toList sampleLinkLocal
      = true := by decide
  exact (h.mp hm).2 (Or.inr (Or.inr hll))

/-- C7 (amended): for every country code C and every IP address ip, with the
MMDB lookup an arbitrary function from IP to ISO code, `geoipFilter{code:
C}.Match(ip)` is true if and only if the looked-up ISO code differs from C
ignoring case and ip is neither in an RFC 1918 range nor a unique local
address (fc00::/7); in particular Match is false for every such private ip and
every C.  Link-local addresses are not exempted. -/
theorem geoipFilter_Match_iff (fold : Char → Char) (lookup : List Byte → Str) (code : Str)
    (ip : List Byte) :
    (geoipFilter.Match fold lookup code ip = true ↔
      (EqualFold fold (lookup ip) code = false ∧ ¬ (inRFC1918 ip ∨ inULA ip))) ∧
    ((inRFC1918 ip ∨ inULA ip) → ∀ c, geoipFilter.Match fold lookup c ip = false) := by
  have hp := IsPrivate_iff ip
  constructor
  · unfold geoipFilter.Match
    rw [← hp]
    cases EqualFold fold (lookup ip) code <;> cases IsPrivate ip <;> simp
  · intro hpriv c
    unfold geoipFilter.Match
    rw [hp.mpr hpriv]
    simp

/-- Instance of the amended C7 statement: the private address 172.31.1.1 is
never matched. -/
theorem geoipFilter_Match_iff_witness :
    inRFC1918 samplePrivate ∧
    geoipFilter.Match asciiFold (fun _ => "US".toList) "CN".toList samplePrivate = false :=
  have hpriv : inRFC1918 samplePrivate :=
    ⟨172, 31, 1, 1, by decide, Or.inr (Or.inl (by decide))⟩
  ⟨hpriv, (geoipFilter_Match_iff asciiFold (fun _ => "US".toList) "CN".toList samplePrivate).2
    (Or.inl hpriv) "CN".toList⟩

/-! ## C6: static tunnels -/

theorem Split_no_sep (s : Str) (c : Char) (h : c ∉ s) : Split s c = [s] := by
  induction s with
  | nil => rfl
  | cons x xs ih =>
    have hx : ¬ x = c := fun hh => h (by rw [hh]; exact List.mem_cons_self _ _)
    have hxs : c ∉ xs := fun hh => h (List.mem_cons_of_mem _ hh)
    unfold Split
    rw [if_neg hx, ih hxs]

theorem Split_append_sep (a r : Str) (c : Char) (h : c ∉ a) :
    Split (a ++ c :: r) c = a :: Split r c := by
  induction a with
  | nil =>
    simp only [List.nil_append]
    conv_lhs => unfold Split
    simp
  | cons x xs ih =>
    have hx : ¬ x = c := fun hh => h (by rw [hh]; exact List.mem_cons_self _ _)
    have hxs : c ∉ xs := fun hh => h (List.mem_cons_of_mem _ hh)
    simp only [List.cons_append]
    conv_lhs => unfold Split
    rw [if_neg hx, ih hxs]

theorem Split_tunnelKey (a t p : Str) (ha : '/' ∉ a) (ht : '/' ∉ t) (hp : '/' ∉ p) :
    Split (tunnelKey a t p) '/' = [a, t, p] := by
  unfold tunnelKey
  rw [Split_append_sep a _ '/' ha, Split_append_sep t _ '/' ht, Split_no_sep p '/' hp]

theorem keyToElm_tunnelKey (n a t p : Str) (ha : '/' ∉ a) (ht : '/' ∉ t) (hp : '/' ∉ p) :
    keyToElm n (tunnelKey a t p) = some { network := n, addr := a, target := t, proxy := p } := by
  unfold keyToElm
  rw [Split_tunnelKey a t p ha ht hp]

/-- On components free of "/" the key determines the triple. -/
theorem tunnelKey_inj (a t p a2 t2 p2 : Str) (ha : '/' ∉ a) (ht : '/' ∉ t) (hp : '/' ∉ p)
    (ha2 : '/' ∉ a2) (ht2 : '/' ∉ t2) (hp2 : '/' ∉ p2)
    (h : tunnelKey a t p = tunnelKey a2 t2 p2) : a = a2 ∧ t = t2 ∧ p = p2 := by
  have h1 := Split_tunnelKey a t p ha ht hp
  rw [h, Split_tunnelKey a2 t2 p2 ha2 ht2 hp2] at h1
  simp only [List.cons.injEq, and_true] at h1
  exact ⟨h1.1.symm, h1.2.1.symm, h1.2.2.symm⟩

theorem mapOpt_spec {α β : Type} (f : α → Option β) (l : List α)
    (h : ∀ a ∈ l, ∃ b, f a = some b) :
    ∃ L, mapOpt f l = some L ∧ ∀ b, b ∈ L ↔ ∃ a ∈ l, f a = some b := by
  induction l with
  | nil => exact ⟨[], rfl, by simp⟩
  | cons a rest ih =>
    obtain ⟨b, hb⟩ := h a (List.mem_cons_self _ _)
    obtain ⟨L, hL, hmem⟩ := ih (fun x hx => h x (List.mem_cons_of_mem _ hx))
    refine ⟨b :: L, ?_, ?_⟩
    · unfold mapOpt
      rw [hb, hL]
    · intro y
      simp only [List.mem_cons, hmem, exists_eq_or_imp, hb, Option.some.injEq]
      constructor
      · rintro (h1 | h1)
        · exact Or.inl h1.symm
        · exact Or.inr h1
      · rintro (h1 | h1)
        · exact Or.inl h1.symm
        · exact Or.inr h1

theorem mem_uniq {α : Type} [DecidableEq α] (l : List α) (x : α) : x ∈ uniq l ↔ x ∈ l := by
  induction l with
  | nil => simp [uniq]
  | cons a rest ih =>
    unfold uniq
    simp only [List.mem_cons, List.mem_filter, decide_eq_true_eq, ih]
    by_cases h : x = a
    · simp [h]
    · simp [h]

theorem nodup_uniq {α : Type} [DecidableEq α] (l : List α) : (uniq l).Nodup := by
  induction l with
  | nil => simp [uniq]
  | cons a rest ih =>
    unfold uniq
    rw [List.nodup_cons]
    constructor
    · simp [List.mem_filter]
    · exact List.Nodup.filter _ ih

theorem mem_newElms (tunnels : List Tunnel) (e : addrProxy) :
    e ∈ newElms tunnels ↔
      ∃ t ∈ tunnels, e.network ∈ t.Network ∧ e.addr = t.Address ∧ e.target = t.Target ∧
        e.proxy = t.Proxy := by
  induction tunnels with
  | nil => simp [newElms]
  | cons t rest ih =>
    unfold newElms
    simp only [List.mem_append, List.mem_map, ih, List.mem_cons, exists_eq_or_imp]
    constructor
    · rintro (⟨n, hn, rfl⟩ | h)
      · exact Or.inl ⟨hn, rfl, rfl, rfl⟩
      · exact Or.inr h
    · rintro (⟨hn, h1, h2, h3⟩ | h)
      · left
        refine ⟨e.network, hn, ?_⟩
        obtain ⟨n, a, tg, p⟩ := e
        simp only at h1 h2 h3
        subst h1 h2 h3
        rfl
      · exact Or.inr h

theorem elm_eq_of_key (e e2 : addrProxy) (h1 : e.slashFree) (h2 : e2.slashFree)
    (hn : e.network = e2.network)
    (hk : tunnelKey e.addr e.target e.proxy = tunnelKey e2.addr e2.target e2.proxy) :
    e = e2 := by
  obtain ⟨a, b, c⟩ := tunnelKey_inj _ _ _ _ _ _ h1.1 h1.2.1 h1.2.2 h2.1 h2.2.1 h2.2.2 hk
  obtain ⟨n, x, y, z⟩ := e
  obtain ⟨n2, x2, y2, z2⟩ := e2
  simp only at hn a b c
  subst hn a b c
  rfl

theorem mapGet_ne_none_of_mem {K V : Type} [DecidableEq K] (m : List (K × V)) (k : K)
    (h : k ∈ mapKeys m) : ∃ v, mapGet m k = some v := by
  cases hg : mapGet m k with
  | none => exact absurd h ((mapGet_eq_none_iff m k).mp hg)
  | some v => exact ⟨v, rfl⟩

theorem closeTunnel_tcp (e : addrProxy) (s : TunnelRegistry) (hn : e.network = "tcp".toList)
    (hk : tunnelKey e.addr e.target e.proxy ∈ mapKeys s.tunnelTCPListeners) :
    closeTunnel e s = some
      { tunnelTCPListeners := mapDel s.tunnelTCPListeners (tunnelKey e.addr e.target e.proxy),
        tunnelUDPListeners := s.tunnelUDPListeners, nextSerial := s.nextSerial } := by
  obtain ⟨v, hv⟩ := mapGet_ne_none_of_mem _ _ hk
  unfold closeTunnel
  simp only [hn, if_true, hv, tunnelClose]

theorem closeTunnel_udp (e : addrProxy) (s : TunnelRegistry) (hn : e.network = "udp".toList)
    (hk : tunnelKey e.addr e.target e.proxy ∈ mapKeys s.tunnelUDPListeners) :
    closeTunnel e s = some
      { tunnelTCPListeners := s.tunnelTCPListeners,
        tunnelUDPListeners := mapDel s.tunnelUDPListeners (tunnelKey e.addr e.target e.proxy),
        nextSerial := s.nextSerial } := by
  obtain ⟨v, hv⟩ := mapGet_ne_none_of_mem _ _ hk
  have hne : ¬ e.network = "tcp".toList := by
    rw [hn]
    decide
  unfold closeTunnel
  simp only [hne, if_false, hv, tunnelClose]

theorem closeTunnels_spec (L : List addrProxy) (s : TunnelRegistry) (hnd : L.Nodup)
    (hL : ∀ e ∈ L, e.slashFree ∧
      ((e.network = "tcp".toList ∧
          tunnelKey e.addr e.target e.proxy ∈ mapKeys s.tunnelTCPListeners) ∨
       (e.network = "udp".toList ∧
          tunnelKey e.addr e.target e.proxy ∈ mapKeys s.tunnelUDPListeners))) :
    ∃ s1, closeTunnels L s = some s1 ∧
      (∀ k, k ∈ mapKeys s1.tunnelTCPListeners ↔
        k ∈ mapKeys s.tunnelTCPListeners ∧
          ∀ e ∈ L, e.network = "tcp".toList → k ≠ tunnelKey e.addr e.target e.proxy) ∧
      (∀ k, k ∈ mapKeys s1.tunnelUDPListeners ↔
        k ∈ mapKeys s.tunnelUDPListeners ∧
          ∀ e ∈ L, e.network = "udp".toList → k ≠ tunnelKey e.addr e.target e.proxy) := by
  induction L generalizing s with
  | nil => exact ⟨s, rfl, by simp, by simp⟩
  | cons e rest ih =>
    obtain ⟨hnot, hnd2⟩ := List.nodup_cons.mp hnd
    obtain ⟨hsf, hlive⟩ := hL e (List.mem_cons_self _ _)
    have hudp_ne : ¬ "udp".toList = "tcp".toList := by decide
    rcases hlive with ⟨hn, hk⟩ | ⟨hn, hk⟩
    · have hstep := closeTunnel_tcp e s hn hk
      generalize hs' : TunnelRegistry.mk
        (mapDel s.tunnelTCPListeners (tunnelKey e.addr e.target e.proxy))
        s.tunnelUDPListeners s.nextSerial = s' at hstep
      have ht' : s'.tunnelTCPListeners =
          mapDel s.tunnelTCPListeners (tunnelKey e.addr e.target e.proxy) := by rw [← hs']
      have hu' : s'.tunnelUDPListeners = s.tunnelUDPListeners := by rw [← hs']
      obtain ⟨s1, hs1, ht, hu⟩ := ih s' hnd2 (by
        intro e2 he2
        obtain ⟨hsf2, hlive2⟩ := hL e2 (List.mem_cons_of_mem _ he2)
        refine ⟨hsf2, ?_⟩
        rcases hlive2 with ⟨hn2, hk2⟩ | ⟨hn2, hk2⟩
        · left
          refine ⟨hn2, ?_⟩
          rw [ht', mem_mapKeys_mapDel]
          refine ⟨hk2, fun heq => ?_⟩
          have := elm_eq_of_key e2 e hsf2 hsf (hn2.trans hn.symm) heq
          exact hnot (this ▸ he2)
        · right
          rw [hu']
          exact ⟨hn2, hk2⟩)
      refine ⟨s1, ?_, ?_, ?_⟩
      · unfold closeTunnels
        rw [hstep]
        exact hs1
      · intro k
        rw [ht, ht', mem_mapKeys_mapDel]
        simp only [List.mem_cons, forall_eq_or_imp]
        constructor
        · rintro ⟨⟨h1, h2⟩, h3⟩
          exact ⟨h1, fun _ => h2, h3⟩
        · rintro ⟨h1, h2, h3⟩
          exact ⟨⟨h1, h2 hn⟩, h3⟩
      · intro k
        rw [hu, hu']
        simp only [List.mem_cons, forall_eq_or_imp]
        constructor
        · rintro ⟨h1, h3⟩
          exact ⟨h1, fun hh => absurd (hh.symm.trans hn) hudp_ne, h3⟩
        · rintro ⟨h1, -, h3⟩
          exact ⟨h1, h3⟩
    · have hne : ¬ e.network = "tcp".toList := by
        rw [hn]
        exact hudp_ne
      have hstep := closeTunnel_udp e s hn hk
      generalize hs' : TunnelRegistry.mk s.tunnelTCPListeners
        (mapDel s.tunnelUDPListeners (tunnelKey e.addr e.target e.proxy))
        s.nextSerial = s' at hstep
      have hu' : s'.tunnelUDPListeners =
          mapDel s.tunnelUDPListeners (tunnelKey e.addr e.target e.proxy) := by rw [← hs']
      have ht' : s'.tunnelTCPListeners = s.tunnelTCPListeners := by rw [← hs']
      obtain ⟨s1, hs1, ht, hu⟩ := ih s' hnd2 (by
        intro e2 he2
        obtain ⟨hsf2, hlive2⟩ := hL e2 (List.mem_cons_of_mem _ he2)
        refine ⟨hsf2, ?_⟩
        rcases hlive2 with ⟨hn2, hk2⟩ | ⟨hn2, hk2⟩
        · left
          rw [ht']
          exact ⟨hn2, hk2⟩
        · right
          refine ⟨hn2, ?_⟩
          rw [hu', mem_mapKeys_mapDel]
          refine ⟨hk2, fun heq => ?_⟩
          have := elm_eq_of_key e2 e hsf2 hsf (hn2.trans hn.symm) heq
          exact hnot (this ▸ he2))
      refine ⟨s1, ?_, ?_, ?_⟩
      · unfold closeTunnels
        rw [hstep]
        exact hs1
      · intro k
        rw [ht, ht']
        simp only [List.mem_cons, forall_eq_or_imp]
        constructor
        · rintro ⟨h1, h3⟩
          exact ⟨h1, fun hh => absurd hh hne, h3⟩
        · rintro ⟨h1, -, h3⟩
          exact ⟨h1, h3⟩
      · intro k
        rw [hu, hu', mem_mapKeys_mapDel]
        simp only [List.mem_cons, forall_eq_or_imp]
        constructor
        · rintro ⟨⟨h1, h2⟩, h3⟩
          exact ⟨h1, fun _ => h2, h3⟩
        · rintro ⟨h1, h2, h3⟩
          exact ⟨⟨h1, h2 hn⟩, h3⟩

theorem createTunnel_keys (env : TunnelEnv) (henv : env.allSucceed) (s : TunnelRegistry)
    (e : addrProxy) :
    (∀ k, k ∈ mapKeys (createTunnel env s e).tunnelTCPListeners ↔
      k ∈ mapKeys s.tunnelTCPListeners ∨
        (e.network = "tcp".toList ∧ k = tunnelKey e.addr e.target e.proxy)) ∧
    (∀ k, k ∈ mapKeys (createTunnel env s e).tunnelUDPListeners ↔
      k ∈ mapKeys s.tunnelUDPListeners ∨
        (e.network ≠ "tcp".toList ∧ k = tunnelKey e.addr e.target e.proxy)) := by
  unfold createTunnel
  by_cases hn : e.network = "tcp".toList
  · simp only [hn, if_true, henv.1, mem_mapKeys_mapSet]
    simp
  · have hn2 : ¬ e.network = ['t', 'c', 'p'] := hn
    simp only [hn, if_false, if_true, henv.2, mem_mapKeys_mapSet]
    simp [hn2]

theorem createTunnels_spec (env : TunnelEnv) (henv : env.allSucceed) (L : List addrProxy)
    (s : TunnelRegistry) :
    (∀ k, k ∈ mapKeys (L.foldl (createTunnel env) s).tunnelTCPListeners ↔
      k ∈ mapKeys s.tunnelTCPListeners ∨
        ∃ e ∈ L, e.network = "tcp".toList ∧ k = tunnelKey e.addr e.target e.proxy) ∧
    (∀ k, k ∈ mapKeys (L.foldl (createTunnel env) s).tunnelUDPListeners ↔
      k ∈ mapKeys s.tunnelUDPListeners ∨
        ∃ e ∈ L, e.network ≠ "tcp".toList ∧ k = tunnelKey e.addr e.target e.proxy) := by
  induction L generalizing s with
  | nil => simp
  | cons e rest ih =>
    simp only [List.foldl_cons]
    obtain ⟨h1, h2⟩ := ih (createTunnel env s e)
    obtain ⟨c1, c2⟩ := createTunnel_keys env henv s e
    constructor
    · intro k
      rw [h1, c1]
      simp only [List.mem_cons, exists_eq_or_imp]
      tauto
    · intro k
      rw [h2, c2]
      simp only [List.mem_cons, exists_eq_or_imp]
      tauto

theorem oldElm_spec (n : Str) (keys : List Str) (hk : ∀ k ∈ keys, goodKey k) :
    ∃ L, mapOpt (keyToElm n) keys = some L ∧
      ∀ e, e ∈ L ↔
        (e.network = n ∧ e.slashFree ∧ tunnelKey e.addr e.target e.proxy ∈ keys) := by
  obtain ⟨L, hL, hmem⟩ := mapOpt_spec (keyToElm n) keys (by
    intro k hkm
    obtain ⟨a, t, p, ha, ht, hp, rfl⟩ := hk k hkm
    exact ⟨_, keyToElm_tunnelKey n a t p ha ht hp⟩)
  refine ⟨L, hL, fun e => ?_⟩
  rw [hmem]
  constructor
  · rintro ⟨k, hkm, hke⟩
    obtain ⟨a, t, p, ha, ht, hp, rfl⟩ := hk k hkm
    rw [keyToElm_tunnelKey n a t p ha ht hp] at hke
    cases hke
    exact ⟨rfl, ⟨ha, ht, hp⟩, hkm⟩
  · rintro ⟨hn, hsf, hkm⟩
    refine ⟨_, hkm, ?_⟩
    rw [keyToElm_tunnelKey n _ _ _ hsf.1 hsf.2.1 hsf.2.2]
    obtain ⟨n2, a, t, p⟩ := e
    simp only at hn
    subst hn
    rfl

/-- While no address, target or proxy name contains "/": `PatchTunnel`
completes, and afterwards the keys of each tunnel map are exactly the keys of
the configured tunnels that declare its network; the keys stay well formed. -/
theorem PatchTunnel_keys_of_slashFree (env : TunnelEnv) (henv : env.allSucceed)
    (hord : env.orderOk) (tunnels : List Tunnel) (s : TunnelRegistry) (hs : keysOk s)
    (ht : ∀ t ∈ tunnels, t.slashFree ∧ t.netOk) :
    ∃ s2, PatchTunnel env tunnels s = some s2 ∧
      (∀ k, k ∈ mapKeys s2.tunnelTCPListeners ↔
        ∃ t ∈ tunnels, "tcp".toList ∈ t.Network ∧ k = tunnelKey t.Address t.Target t.Proxy) ∧
      (∀ k, k ∈ mapKeys s2.tunnelUDPListeners ↔
        ∃ t ∈ tunnels, "udp".toList ∈ t.Network ∧ k = tunnelKey t.Address t.Target t.Proxy) ∧
      keysOk s2 := by
  have hudp_ne : ¬ "udp".toList = "tcp".toList := by decide
  obtain ⟨tcpOld, h1, m1⟩ := oldElm_spec "tcp".toList (env.order (mapKeys s.tunnelTCPListeners))
    (fun k hk => hs.1 k ((hord _).mem_iff.mp hk))
  obtain ⟨udpOld, h2, m2⟩ := oldElm_spec "udp".toList (env.order (mapKeys s.tunnelUDPListeners))
    (fun k hk => hs.2 k ((hord _).mem_iff.mp hk))
  simp only [(hord _).mem_iff] at m1 m2
  have hold : ∀ e, e ∈ loUnion tcpOld udpOld ↔
      (e.network = "tcp".toList ∧ e.slashFree ∧
        tunnelKey e.addr e.target e.proxy ∈ mapKeys s.tunnelTCPListeners) ∨
      (e.network = "udp".toList ∧ e.slashFree ∧
        tunnelKey e.addr e.target e.proxy ∈ mapKeys s.tunnelUDPListeners) := by
    intro e
    unfold loUnion
    rw [mem_uniq, List.mem_append, m1, m2]
  have hnew : ∀ e ∈ newElms tunnels, e.slashFree ∧
      (e.network = "tcp".toList ∨ e.network = "udp".toList) := by
    intro e he
    obtain ⟨t, htm, hn, ha, htg, hp⟩ := (mem_newElms tunnels e).mp he
    obtain ⟨hsf, hnet⟩ := ht t htm
    refine ⟨?_, hnet _ hn⟩
    unfold addrProxy.slashFree
    rw [ha, htg, hp]
    exact hsf
  have hd1 : ∀ e, e ∈ (loDifference (loUnion tcpOld udpOld) (newElms tunnels)).1 ↔
      e ∈ loUnion tcpOld udpOld ∧ e ∉ newElms tunnels := by
    intro e
    simp [loDifference, List.mem_filter]
  have hd2 : ∀ e, e ∈ (loDifference (loUnion tcpOld udpOld) (newElms tunnels)).2 ↔
      e ∈ newElms tunnels ∧ e ∉ loUnion tcpOld udpOld := by
    intro e
    simp [loDifference, List.mem_filter]
  have hnd : (loDifference (loUnion tcpOld udpOld) (newElms tunnels)).1.Nodup := by
    unfold loDifference loUnion
    exact List.Nodup.filter _ (nodup_uniq _)
  obtain ⟨s1, hs1, c1, c2⟩ := closeTunnels_spec _ s hnd (by
    intro e he
    rcases (hold e).mp ((hd1 e).mp he).1 with ⟨a, b, c⟩ | ⟨a, b, c⟩
    · exact ⟨b, Or.inl ⟨a, c⟩⟩
    · exact ⟨b, Or.inr ⟨a, c⟩⟩)
  obtain ⟨k1, k2⟩ := createTunnels_spec env henv
    (loDifference (loUnion tcpOld udpOld) (newElms tunnels)).2 s1
  have hres : PatchTunnel env tunnels s = some
      ((loDifference (loUnion tcpOld udpOld) (newElms tunnels)).2.foldl (createTunnel env) s1) := by
    unfold PatchTunnel
    simp only [h1, h2, hs1]
  -- the characterisation for one network, stated once for both maps
  have main : ∀ (n : Str) (keysBefore keysMid keysAfter : List Str),
      (n = "tcp".toList ∨ n = "udp".toList) →
      (∀ e : addrProxy, e.network = n → e.slashFree →
        (tunnelKey e.addr e.target e.proxy ∈ keysBefore ↔ e ∈ loUnion tcpOld udpOld)) →
      (∀ k ∈ keysBefore, ∃ e : addrProxy, e.network = n ∧ e.slashFree ∧
        k = tunnelKey e.addr e.target e.proxy) →
      (∀ k, k ∈ keysMid ↔ k ∈ keysBefore ∧
        ∀ e ∈ (loDifference (loUnion tcpOld udpOld) (newElms tunnels)).1,
          e.network = n → k ≠ tunnelKey e.addr e.target e.proxy) →
      (∀ k, k ∈ keysAfter ↔ k ∈ keysMid ∨
        ∃ e ∈ (loDifference (loUnion tcpOld udpOld) (newElms tunnels)).2,
          e.network = n ∧ k = tunnelKey e.addr e.target e.proxy) →
      ∀ k, k ∈ keysAfter ↔
        ∃ t ∈ tunnels, n ∈ t.Network ∧ k = tunnelKey t.Address t.Target t.Proxy := by
    intro n kb km ka _ hb1 hb2 hmid hafter k
    rw [hafter, hmid]
    constructor
    · rintro (⟨hkb, hnc⟩ | ⟨e, he, hn, rfl⟩)
      · obtain ⟨e, hn, hsf, rfl⟩ := hb2 k hkb
        have heold := (hb1 e hn hsf).mp hkb
        have henew : e ∈ newElms tunnels := by
          by_contra hcon
          exact hnc e ((hd1 e).mpr ⟨heold, hcon⟩) hn rfl
        obtain ⟨t, htm, hnn, ha, htg, hp⟩ := (mem_newElms tunnels e).mp henew
        exact ⟨t, htm, hn ▸ hnn, by rw [ha, htg, hp]⟩
      · obtain ⟨t, htm, hnn, ha, htg, hp⟩ := (mem_newElms tunnels e).mp ((hd2 e).mp he).1
        exact ⟨t, htm, hn ▸ hnn, by rw [ha, htg, hp]⟩
    · rintro ⟨t, htm, hnn, rfl⟩
      have henew : addrProxy.mk n t.Address t.Target t.Proxy ∈ newElms tunnels :=
        (mem_newElms tunnels _).mpr ⟨t, htm, hnn, rfl, rfl, rfl⟩
      have hsf := (hnew _ henew).1
      by_cases heold : addrProxy.mk n t.Address t.Target t.Proxy ∈ loUnion tcpOld udpOld
      · left
        refine ⟨(hb1 _ rfl hsf).mpr heold, ?_⟩
        intro e2 he2 hn2 heq
        obtain ⟨he2old, he2new⟩ := (hd1 e2).mp he2
        have hsf2 : e2.slashFree := by
          rcases (hold e2).mp he2old with ⟨-, b, -⟩ | ⟨-, b, -⟩ <;> exact b
        have := elm_eq_of_key _ e2 hsf hsf2 hn2.symm heq
        exact he2new (this ▸ henew)
      · right
        exact ⟨_, (hd2 _).mpr ⟨henew, heold⟩, rfl, rfl⟩
  have htcp := main "tcp".toList (mapKeys s.tunnelTCPListeners) (mapKeys s1.tunnelTCPListeners)
    (mapKeys ((loDifference (loUnion tcpOld udpOld) (newElms tunnels)).2.foldl
      (createTunnel env) s1).tunnelTCPListeners) (Or.inl rfl)
    (by
      intro e hn hsf
      rw [hold]
      constructor
      · intro h
        exact Or.inl ⟨hn, hsf, h⟩
      · rintro (⟨-, -, h⟩ | ⟨h, -, -⟩)
        · exact h
        · exact absurd (h.symm.trans hn) hudp_ne)
    (by
      intro k hk
      obtain ⟨a, t, p, ha, htt, hp, rfl⟩ := hs.1 k hk
      exact ⟨⟨"tcp".toList, a, t, p⟩, rfl, ⟨ha, htt, hp⟩, rfl⟩)
    c1 k1
  have hudp := main "udp".toList (mapKeys s.tunnelUDPListeners) (mapKeys s1.tunnelUDPListeners)
    (mapKeys ((loDifference (loUnion tcpOld udpOld) (newElms tunnels)).2.foldl
      (createTunnel env) s1).tunnelUDPListeners) (Or.inr rfl)
    (by
      intro e hn hsf
      rw [hold]
      constructor
      · intro h
        exact Or.inr ⟨hn, hsf, h⟩
      · rintro (⟨h, -, -⟩ | ⟨-, -, h⟩)
        · exact absurd (hn.symm.trans h) hudp_ne
        · exact h)
    (by
      intro k hk
      obtain ⟨a, t, p, ha, htt, hp, rfl⟩ := hs.2 k hk
      exact ⟨⟨"udp".toList, a, t, p⟩, rfl, ⟨ha, htt, hp⟩, rfl⟩)
    c2 (by
      intro k
      rw [k2]
      constructor
      · rintro (h | ⟨e, he, hn, rfl⟩)
        · exact Or.inl h
        · right
          refine ⟨e, he, ?_, rfl⟩
          rcases (hnew e ((hd2 e).mp he).1).2 with h | h
          · exact absurd h hn
          · exact h
      · rintro (h | ⟨e, he, hn, rfl⟩)
        · exact Or.inl h
        · right
          refine ⟨e, he, ?_, rfl⟩
          rw [hn]
          exact hudp_ne)
  refine ⟨_, hres, htcp, hudp, ?_, ?_⟩
  · intro k hk
    obtain ⟨t, htm, -, rfl⟩ := (htcp k).mp hk
    obtain ⟨hsf, -⟩ := ht t htm
    exact ⟨_, _, _, hsf.1, hsf.2.1, hsf.2.2, rfl⟩
  · intro k hk
    obtain ⟨t, htm, -, rfl⟩ := (hudp k).mp hk
    obtain ⟨hsf, -⟩ := ht t htm
    exact ⟨_, _, _, hsf.1, hsf.2.1, hsf.2.2, rfl⟩

theorem keysOk_init : keysOk TunnelRegistry.init := by
  constructor <;> intro k hk <;> simp [TunnelRegistry.init, mapKeys] at hk

/-- C6 (defect in the code): the key joins address, target and proxy with "/"
and `PatchTunnel` recovers them by splitting the key on "/".  With the proxy
name "hk/01": the first `PatchTunnel` creates the tunnel; a second
`PatchTunnel` with the same list reads the proxy back as "hk", takes the live
tunnel for a stale one and calls `Close` through the nil entry of its
rebuilt key (a panic, where the claim says it completes without error); a
`PatchTunnel` with the proxy renamed to "hk" finds nothing to close or create
and leaves the key ".../hk/01" where the configured key is ".../hk"; and two
distinct triples render to the same key. -/
theorem PatchTunnel_slash_in_name :
    (PatchTunnel TunnelEnv.ok [sampleTunnelSlash] TunnelRegistry.init).isSome = true ∧
    (PatchTunnel TunnelEnv.ok [sampleTunnelSlash] TunnelRegistry.init).bind
      (PatchTunnel TunnelEnv.ok [sampleTunnelSlash]) = none ∧
    ((PatchTunnel TunnelEnv.ok [sampleTunnelSlash] TunnelRegistry.init).bind
      (PatchTunnel TunnelEnv.ok [sampleTunnelHk])).map
        (fun s => mapKeys s.tunnelTCPListeners) =
      some ["127.0.0.1:6553/8.8.8.8:53/hk/01".toList] ∧
    tunnelKey sampleTunnelHk.Address sampleTunnelHk.Target sampleTunnelHk.Proxy =
      "127.0.0.1:6553/8.8.8.8:53/hk".toList ∧
    tunnelKey "a".toList "b/c".toList "d".toList = tunnelKey "a".toList "b".toList "c/d".toList ∧
    ("a".toList, "b/c".toList, "d".toList) ≠ ("a".toList, "b".toList, "c/d".toList) := by
  decide

/-! ## C10: upgrade requests -/

theorem upgradeInElms_iff (fold : Char → Char) (l : List Str) :
    upgradeInElms fold l = true ↔
      ∃ elm ∈ l, EqualFold fold (TrimSpace elm) "Upgrade".toList = true := by
  induction l with
  | nil => simp [upgradeInElms]
  | cons e rest ih =>
    unfold upgradeInElms
    by_cases h : EqualFold fold (TrimSpace e) "Upgrade".toList = true
    · rw [if_pos h]
      simp only [true_iff]
      exact ⟨e, List.mem_cons_self _ _, h⟩
    · rw [if_neg h, ih]
      constructor
      · rintro ⟨x, hx, hh⟩
        exact ⟨x, List.mem_cons_of_mem _ hx, hh⟩
      · rintro ⟨x, hx, hh⟩
        rcases List.mem_cons.mp hx with rfl | hx
        · exact absurd hh h
        · exact ⟨x, hx, hh⟩

theorem upgradeInHeaders_iff (fold : Char → Char) (l : List Str) :
    upgradeInHeaders fold l = true ↔
      ∃ header ∈ l, ∃ elm ∈ Split header ',',
        EqualFold fold (TrimSpace elm) "Upgrade".toList = true := by
  induction l with
  | nil => simp [upgradeInHeaders]
  | cons e rest ih =>
    unfold upgradeInHeaders
    by_cases h : upgradeInElms fold (Split e ',') = true
    · rw [if_pos h]
      simp only [true_iff]
      exact ⟨e, List.mem_cons_self _ _, (upgradeInElms_iff fold _).mp h⟩
    · rw [if_neg h, ih]
      constructor
      · rintro ⟨x, hx, hh⟩
        exact ⟨x, List.mem_cons_of_mem _ hx, hh⟩
      · rintro ⟨x, hx, hh⟩
        rcases List.mem_cons.mp hx with rfl | hx
        · exact absurd ((upgradeInElms_iff fold _).mpr hh) h
        · exact ⟨x, hx, hh⟩

theorem EqualFold_length (fold : Char → Char) (s t : Str) (h : EqualFold fold s t = true) :
    s.length = t.length := by
  unfold EqualFold at h
  have := congrArg List.length (of_decide_eq_true h)
  simpa using this

theorem Split_ne_nil (s : Str) (c : Char) : Split s c ≠ [] := by
  cases s with
  | nil => simp [Split]
  | cons x xs =>
    unfold Split
    split_ifs
    · simp
    · split <;> simp

/-- The first piece of a split is a prefix free of the separator that ends at
the end of the string or at a separator; every later piece lies after a
separator and ends at the end or at a separator. -/
theorem Split_structure (s : Str) (c : Char) :
    ∃ p ps, Split s c = p :: ps ∧
      (∃ b, s = p ++ b ∧ c ∉ p ∧ (b = [] ∨ ∃ b2, b = c :: b2)) ∧
      ∀ tok ∈ ps, ∃ a2 b, s = (a2 ++ [c]) ++ tok ++ b ∧ c ∉ tok ∧ (b = [] ∨ ∃ b2, b = c :: b2) := by
  induction s with
  | nil => exact ⟨[], [], rfl, ⟨[], rfl, by simp, Or.inl rfl⟩, by simp⟩
  | cons x xs ih =>
    obtain ⟨p, ps, hsp, ⟨b, hb, hcp, hbb⟩, htail⟩ := ih
    by_cases hx : x = c
    · subst hx
      refine ⟨[], Split xs x, ?_, ⟨x :: xs, rfl, by simp, Or.inr ⟨xs, rfl⟩⟩, ?_⟩
      · conv_lhs => unfold Split
        simp
      · intro tok htok
        rw [hsp] at htok
        rcases List.mem_cons.mp htok with rfl | htok
        · exact ⟨[], b, by simp [hb], hcp, hbb⟩
        · obtain ⟨a2, b3, h1, h2, h3⟩ := htail tok htok
          exact ⟨x :: a2, b3, by rw [h1]; simp, h2, h3⟩
    · refine ⟨x :: p, ps, ?_, ⟨b, by rw [hb]; simp, ?_, hbb⟩, ?_⟩
      · conv_lhs => unfold Split
        rw [if_neg hx, hsp]
      · intro hmem
        rcases List.mem_cons.mp hmem with h | h
        · exact hx h.symm
        · exact hcp h
      · intro tok htok
        obtain ⟨a2, b3, h1, h2, h3⟩ := htail tok htok
        exact ⟨x :: a2, b3, by rw [h1]; simp, h2, h3⟩

theorem isCommaElement_of_mem_Split (s tok : Str) (h : tok ∈ Split s ',') :
    isCommaElement s tok := by
  obtain ⟨p, ps, hsp, ⟨b, hb, hcp, hbb⟩, htail⟩ := Split_structure s ','
  rw [hsp] at h
  rcases List.mem_cons.mp h with rfl | h
  · exact ⟨[], b, by simp [hb], hcp, Or.inl rfl, hbb⟩
  · obtain ⟨a2, b3, h1, h2, h3⟩ := htail tok h
    exact ⟨a2 ++ [','], b3, h1, h2, Or.inr ⟨a2, rfl⟩, h3⟩

theorem Split_cons_sep (r : Str) (c : Char) : Split (c :: r) c = [] :: Split r c := by
  conv_lhs => unfold Split
  simp

theorem Split_cons_ne (x : Char) (xs : Str) (c : Char) (p : Str) (ps : List Str)
    (hx : ¬ x = c) (h : Split xs c = p :: ps) : Split (x :: xs) c = (x :: p) :: ps := by
  conv_lhs => unfold Split
  rw [if_neg hx, h]

theorem mem_Split_tail_after_sep (a r : Str) (c : Char) (tok : Str) (h : tok ∈ Split r c) :
    tok ∈ (Split (a ++ c :: r) c).tail := by
  induction a with
  | nil =>
    rw [List.nil_append, Split_cons_sep]
    exact h
  | cons x xs ih =>
    obtain ⟨p, ps, hsp, -, -⟩ := Split_structure (xs ++ c :: r) c
    rw [hsp] at ih
    rw [List.cons_append]
    by_cases hx : x = c
    · subst hx
      rw [Split_cons_sep, hsp]
      exact List.mem_cons_of_mem _ ih
    · rw [Split_cons_ne x _ c p ps hx hsp]
      exact ih

theorem mem_Split_of_isCommaElement (s tok : Str) (h : isCommaElement s tok) :
    tok ∈ Split s ',' := by
  obtain ⟨a, b, hs, hc, ha, hb⟩ := h
  have hfirst : tok ∈ Split (tok ++ b) ',' := by
    rcases hb with rfl | ⟨b2, rfl⟩
    · rw [List.append_nil, Split_no_sep tok ',' hc]
      exact List.mem_singleton.mpr rfl
    · rw [Split_append_sep tok b2 ',' hc]
      exact List.mem_cons_self _ _
  rcases ha with rfl | ⟨a2, rfl⟩
  · rw [hs]
    simpa using hfirst
  · have := mem_Split_tail_after_sep a2 (tok ++ b) ',' tok hfirst
    rw [hs]
    have heq : a2 ++ [','] ++ tok ++ b = a2 ++ ',' :: (tok ++ b) := by simp
    rw [heq]
    exact List.mem_of_mem_tail this

theorem dropWhile_append_of_all (p : Char → Bool) (l1 l2 : Str) (h : ∀ c ∈ l1, p c = true) :
    (l1 ++ l2).dropWhile p = l2.dropWhile p := by
  induction l1 with
  | nil => rfl
  | cons x xs ih =>
    simp only [List.cons_append, List.dropWhile_cons, h x (List.mem_cons_self _ _), if_true]
    exact ih (fun c hc => h c (List.mem_cons_of_mem _ hc))

theorem dropWhile_of_head (p : Char → Bool) (l : Str)
    (h : ∀ c, l.head? = some c → p c = false) : l.dropWhile p = l := by
  cases l with
  | nil => rfl
  | cons x xs =>
    have := h x rfl
    simp [List.dropWhile_cons, this]

/-- Trimming removes whitespace from both ends and nothing else. -/
theorem TrimSpace_decomp (s : Str) :
    ∃ ws1 ws2, s = ws1 ++ TrimSpace s ++ ws2 ∧ allSpace ws1 ∧ allSpace ws2 := by
  refine ⟨s.takeWhile isSpace,
    (((s.dropWhile isSpace).reverse).takeWhile isSpace).reverse, ?_, ?_, ?_⟩
  · unfold TrimSpace
    have h1 := List.takeWhile_append_dropWhile isSpace s
    have h2 := List.takeWhile_append_dropWhile isSpace (s.dropWhile isSpace).reverse
    have h3 : s.dropWhile isSpace =
        (((s.dropWhile isSpace).reverse).dropWhile isSpace).reverse ++
          (((s.dropWhile isSpace).reverse).takeWhile isSpace).reverse := by
      rw [← List.reverse_append, h2, List.reverse_reverse]
    rw [List.append_assoc, ← h3, h1]
  · intro c hc
    exact List.mem_takeWhile_imp hc
  · intro c hc
    exact List.mem_takeWhile_imp (List.mem_reverse.mp hc)

/-- A non-empty string without whitespace at its ends is what trimming leaves
of it with whitespace put around. -/
theorem TrimSpace_of_decomp (ws1 w ws2 : Str) (h1 : allSpace ws1) (h2 : allSpace ws2)
    (hne : w ≠ []) (hw : noOuterSpace w) : TrimSpace (ws1 ++ w ++ ws2) = w := by
  unfold TrimSpace
  rw [List.append_assoc, dropWhile_append_of_all isSpace ws1 _ h1]
  have hhead : ∀ c, (w ++ ws2).head? = some c → isSpace c = false := by
    intro c hc
    cases w with
    | nil => exact absurd rfl hne
    | cons x xs => exact hw.1 c hc
  rw [dropWhile_of_head isSpace _ hhead, List.reverse_append,
    dropWhile_append_of_all isSpace ws2.reverse _
      (fun c hc => h2 c (List.mem_reverse.mp hc))]
  have hlast : ∀ c, w.reverse.head? = some c → isSpace c = false := by
    intro c hc
    rw [List.head?_reverse] at hc
    exact hw.2 c hc
  rw [dropWhile_of_head isSpace _ hlast, List.reverse_reverse]

theorem isUpgradeWord_noOuterSpace (w : Str) (h : isUpgradeWord w) :
    w ≠ [] ∧ noOuterSpace w ∧ w.length = 7 := by
  obtain ⟨c1, c2, c3, c4, c5, c6, c7, rfl, h1, -, -, -, -, -, h7⟩ := h
  refine ⟨by simp, ⟨?_, ?_⟩, rfl⟩
  · intro c hc
    simp only [List.head?_cons, Option.some.injEq] at hc
    subst hc
    rcases h1 with rfl | rfl <;> decide
  · intro c hc
    simp only [List.getLast?_cons_cons, List.getLast?_singleton, Option.some.injEq] at hc
    subst hc
    rcases h7 with rfl | rfl <;> decide

/-- Under the folding table of the library, `EqualFold` with "Upgrade" holds
of the case variants of the word and of nothing else. -/
theorem EqualFold_Upgrade_iff (fold : Char → Char) (hfold : upgradeOrbits fold) (w : Str) :
    EqualFold fold w "Upgrade".toList = true ↔ isUpgradeWord w := by
  have hU : "Upgrade".toList = ['U', 'p', 'g', 'r', 'a', 'd', 'e'] := rfl
  unfold EqualFold
  rw [decide_eq_true_iff, hU]
  constructor
  · intro h
    have hlen : w.length = 7 := by
      have := congrArg List.length h
      simpa using this
    obtain ⟨c1, c2, c3, c4, c5, c6, c7, rfl⟩ :
        ∃ c1 c2 c3 c4 c5 c6 c7, w = [c1, c2, c3, c4, c5, c6, c7] := by
      match w, hlen with
      | [c1, c2, c3, c4, c5, c6, c7], _ => exact ⟨c1, c2, c3, c4, c5, c6, c7, rfl⟩
    simp only [List.map_cons, List.map_nil, List.cons.injEq, and_true] at h
    obtain ⟨h1, h2, h3, h4, h5, h6, h7⟩ := h
    exact ⟨c1, c2, c3, c4, c5, c6, c7, rfl, (hfold c1).1.mp h1, (hfold c2).2.1.mp h2,
      (hfold c3).2.2.1.mp h3, (hfold c4).2.2.2.1.mp h4, (hfold c5).2.2.2.2.1.mp h5,
      (hfold c6).2.2.2.2.2.1.mp h6, (hfold c7).2.2.2.2.2.2.mp h7⟩
  · rintro ⟨c1, c2, c3, c4, c5, c6, c7, rfl, h1, h2, h3, h4, h5, h6, h7⟩
    simp only [List.map_cons, List.map_nil]
    rw [(hfold c1).1.mpr h1, (hfold c2).2.1.mpr h2, (hfold c3).2.2.1.mpr h3,
      (hfold c4).2.2.2.1.mpr h4, (hfold c5).2.2.2.2.1.mpr h5, (hfold c6).2.2.2.2.2.1.mpr h6,
      (hfold c7).2.2.2.2.2.2.mpr h7]

/-- C10: with the case-folding table of the library (on the letters of
"Upgrade": upper and lower case fold together, nothing else does),
`isUpgradeRequest req` is true exactly when some value of the Connection
header has, among the pieces its commas cut it into, one that is the word
"upgrade" in any case with whitespace around it; it is false when the request
has no Connection header, and false when every piece, apart from surrounding
whitespace, contains a seven-letter word such as "upgrade" only as a proper
substring. -/
theorem isUpgradeRequest_iff_token (fold : Char → Char) (hfold : upgradeOrbits fold)
    (req : Request) :
    (isUpgradeRequest fold req = true ↔
      ∃ header ∈ req.Header "Connection".toList, ∃ tok,
        isCommaElement header tok ∧ isUpgradeToken tok) ∧
    (req.Header "Connection".toList = [] → isUpgradeRequest fold req = false) ∧
    ((∀ header ∈ req.Header "Connection".toList, ∀ tok,
        isCommaElement header tok → properlyContainsWord tok) →
      isUpgradeRequest fold req = false) := by
  have hcode : isUpgradeRequest fold req = true ↔
      ∃ header ∈ req.Header "Connection".toList, ∃ elm ∈ Split header ',',
        EqualFold fold (TrimSpace elm) "Upgrade".toList = true := by
    unfold isUpgradeRequest
    exact upgradeInHeaders_iff fold _
  refine ⟨?_, ?_, ?_⟩
  · rw [hcode]
    constructor
    · rintro ⟨header, hh, elm, he, heq⟩
      refine ⟨header, hh, elm, isCommaElement_of_mem_Split header elm he, ?_⟩
      obtain ⟨ws1, ws2, hd, hs1, hs2⟩ := TrimSpace_decomp elm
      exact ⟨ws1, TrimSpace elm, ws2, hd, hs1, hs2,
        (EqualFold_Upgrade_iff fold hfold _).mp heq⟩
    · rintro ⟨header, hh, tok, hce, ws1, core, ws2, rfl, hs1, hs2, hw⟩
      refine ⟨header, hh, _, mem_Split_of_isCommaElement header _ hce, ?_⟩
      obtain ⟨hne, hno, -⟩ := isUpgradeWord_noOuterSpace core hw
      rw [TrimSpace_of_decomp ws1 core ws2 hs1 hs2 hne hno]
      exact (EqualFold_Upgrade_iff fold hfold _).mpr hw
  · intro hnone
    unfold isUpgradeRequest
    rw [hnone]
    rfl
  · intro hall
    cases hres : isUpgradeRequest fold req with
    | false => rfl
    | true =>
      obtain ⟨header, hh, elm, he, heq⟩ := hcode.mp hres
      obtain ⟨ws1, pre, u, post, ws2, rfl, hs1, hs2, hno, hu, hne⟩ :=
        hall header hh elm (isCommaElement_of_mem_Split header elm he)
      have hw : pre ++ u ++ post ≠ [] := by
        intro h
        have := congrArg List.length h
        simp only [List.length_append, hu, List.length_nil] at this
        omega
      rw [TrimSpace_of_decomp ws1 _ ws2 hs1 hs2 hw hno] at heq
      have hlen := EqualFold_length fold _ _ heq
      have h7 : "Upgrade".toList.length = 7 := by decide
      simp only [List.length_append, hu, h7] at hlen
      have : pre.length = 0 ∧ post.length = 0 := by omega
      rcases hne with h | h
      · exact absurd (List.length_eq_zero.mp this.1) h
      · exact absurd (List.length_eq_zero.mp this.2) h

theorem asciiFold_orbit (lo up : Char) (h1 : asciiFold up = lo) (h2 : asciiFold lo = lo)
    (h3 : ¬ (65 ≤ lo.toNat ∧ lo.toNat ≤ 90))
    (h4 : ∀ n, 65 ≤ n → n ≤ 90 → Char.ofNat (n + 32) = lo → Char.ofNat n = up) (c : Char) :
    asciiFold c = lo ↔ (c = up ∨ c = lo) := by
  constructor
  · intro h
    unfold asciiFold at h
    split_ifs at h with hr
    · left
      have := h4 c.toNat hr.1 hr.2 h
      rw [Char.ofNat_toNat] at this
      exact this
    · exact Or.inr h
  · rintro (rfl | rfl)
    · exact h1
    · exact h2

/-- Case folding of the ASCII letters has the orbits required of the table. -/
theorem upgradeOrbits_asciiFold : upgradeOrbits asciiFold := by
  intro c
  have hU : asciiFold 'U' = 'u' := by decide
  have hp : asciiFold 'p' = 'p' := by decide
  have hg : asciiFold 'g' = 'g' := by decide
  have hr : asciiFold 'r' = 'r' := by decide
  have ha : asciiFold 'a' = 'a' := by decide
  have hd : asciiFold 'd' = 'd' := by decide
  have he : asciiFold 'e' = 'e' := by decide
  rw [hU, hp, hg, hr, ha, hd, he]
  refine ⟨?_, ?_, ?_, ?_, ?_, ?_, ?_⟩
  · exact asciiFold_orbit 'u' 'U' (by decide) (by decide) (by decide)
      (by intro n h1 h2; interval_cases n <;> decide) c
  · exact asciiFold_orbit 'p' 'P' (by decide) (by decide) (by decide)
      (by intro n h1 h2; interval_cases n <;> decide) c
  · exact asciiFold_orbit 'g' 'G' (by decide) (by decide) (by decide)
      (by intro n h1 h2; interval_cases n <;> decide) c
  · exact asciiFold_orbit 'r' 'R' (by decide) (by decide) (by decide)
      (by intro n h1 h2; interval_cases n <;> decide) c
  · exact asciiFold_orbit 'a' 'A' (by decide) (by decide) (by decide)
      (by intro n h1 h2; interval_cases n <;> decide) c
  · exact asciiFold_orbit 'd' 'D' (by decide) (by decide) (by decide)
      (by intro n h1 h2; interval_cases n <;> decide) c
  · exact asciiFold_orbit 'e' 'E' (by decide) (by decide) (by decide)
      (by intro n h1 h2; interval_cases n <;> decide) c

/-- Instance of the C10 statement: a request with `Connection: keep-alive,
upgrade` is an upgrade request, one with `Connection: upgraded` and one
without Connection header are not. -/
theorem isUpgradeRequest_iff_token_witness :
    upgradeOrbits asciiFold ∧
    isUpgradeRequest asciiFold sampleUpgradeReq = true ∧
    isUpgradeRequest asciiFold sampleNoConnectionReq = false ∧
    isUpgradeRequest asciiFold sampleUpgradedReq = false :=
  ⟨upgradeOrbits_asciiFold,
    (isUpgradeRequest_iff_token asciiFold upgradeOrbits_asciiFold sampleUpgradeReq).1.mpr
      ⟨"keep-alive, upgrade ".toList, by decide, " upgrade ".toList,
        ⟨"keep-alive,".toList, [], by decide, by decide, Or.inr ⟨"keep-alive".toList, by decide⟩,
          Or.inl rfl⟩,
        ⟨" ".toList, "upgrade".toList, " ".toList, by decide, by unfold allSpace; decide,
          by unfold allSpace; decide,
          ⟨'u', 'p', 'g', 'r', 'a', 'd', 'e', by decide, Or.inr rfl, Or.inr rfl, Or.inr rfl,
            Or.inr rfl, Or.inr rfl, Or.inr rfl, Or.inr rfl⟩⟩⟩,
    (isUpgradeRequest_iff_token asciiFold upgradeOrbits_asciiFold sampleNoConnectionReq).2.1
      (by decide),
    (isUpgradeRequest_iff_token asciiFold upgradeOrbits_asciiFold sampleUpgradedReq).2.2 (by
      intro header hh tok htok
      have hv : sampleUpgradedReq.Header "Connection".toList = ["upgraded".toList] := by decide
      rw [hv] at hh
      have h1 : header = "upgraded".toList := List.mem_singleton.mp hh
      subst h1
      have h2 := mem_Split_of_isCommaElement _ _ htok
      have h3 : Split "upgraded".toList ',' = ["upgraded".toList] := by decide
      rw [h3] at h2
      have h4 : tok = "upgraded".toList := List.mem_singleton.mp h2
      subst h4
      exact ⟨[], [], "upgrade".toList, "d".toList, [], by decide, by unfold allSpace; decide,
        by unfold allSpace; decide, by unfold noOuterSpace; decide, by decide,
        Or.inr (by decide)⟩)⟩

end Clash



